import Mathlib

/-!
Verification development for the BGP-Intel repository.

The Python scripts are shallowly embedded in Lean:

* Python strings are modelled as `List Char` with ASCII semantics for
  `str.strip`, `str.upper`, `str.lower` and the `re` whitespace class;
* JSON values returned by the RIPEstat API are modelled by the inductive
  type `JsonVal` (Python `dict.get` with a default is `dictGet`; calling
  `.get` on a non-dict raises, which is `dictGetE` returning `Except`);
* HTTP requests are modelled by a fetch oracle supplied through an
  environment structure; each call site passes the running request
  counter, so a counterexample or theorem can count the GET requests a
  script issues; raised exceptions are `Except.error ()`;
* Python `list.sort(key=..., reverse=True)` is a stable sort by the key;
  it is modelled by `List.insertionSort` (also stable) with the relation
  `fun a b => key b ≤ key a`, which produces the same list.
-/

/-! ## Python string primitives (ASCII semantics, over `List Char`) -/

/-- Python `\s` / `str.strip()` whitespace class, ASCII part. -/
def pyIsSpace (c : Char) : Bool :=
  c = ' ' || c = '\t' || c = '\n' || c = '\x0d' || c = '\x0b' || c = '\x0c'

/-- Python `str.upper` on a single character (ASCII case table). -/
def pyUpperChar : Char → Char
  | 'a' => 'A' | 'b' => 'B' | 'c' => 'C' | 'd' => 'D' | 'e' => 'E' | 'f' => 'F'
  | 'g' => 'G' | 'h' => 'H' | 'i' => 'I' | 'j' => 'J' | 'k' => 'K' | 'l' => 'L'
  | 'm' => 'M' | 'n' => 'N' | 'o' => 'O' | 'p' => 'P' | 'q' => 'Q' | 'r' => 'R'
  | 's' => 'S' | 't' => 'T' | 'u' => 'U' | 'v' => 'V' | 'w' => 'W' | 'x' => 'X'
  | 'y' => 'Y' | 'z' => 'Z' | c => c

/-- Python `str.lower` on a single character (ASCII case table). -/
def pyLowerChar : Char → Char
  | 'A' => 'a' | 'B' => 'b' | 'C' => 'c' | 'D' => 'd' | 'E' => 'e' | 'F' => 'f'
  | 'G' => 'g' | 'H' => 'h' | 'I' => 'i' | 'J' => 'j' | 'K' => 'k' | 'L' => 'l'
  | 'M' => 'm' | 'N' => 'n' | 'O' => 'o' | 'P' => 'p' | 'Q' => 'q' | 'R' => 'r'
  | 'S' => 's' | 'T' => 't' | 'U' => 'u' | 'V' => 'v' | 'W' => 'w' | 'X' => 'x'
  | 'Y' => 'y' | 'Z' => 'z' | c => c

/-- Python `str.upper`. -/
def pyUpper (s : List Char) : List Char := s.map pyUpperChar

/-- Python `str.lower`. -/
def pyLower (s : List Char) : List Char := s.map pyLowerChar

/-- Python `str.lstrip()`. -/
def pyLstrip (s : List Char) : List Char := s.dropWhile pyIsSpace

/-- Python `str.rstrip()`. -/
def pyRstrip (s : List Char) : List Char := ((s.reverse).dropWhile pyIsSpace).reverse

/-- Python `str.strip()`. -/
def pyStrip (s : List Char) : List Char := pyRstrip (pyLstrip s)

/-- The regex class `[A-Z]`. -/
def isUpperAlpha (c : Char) : Bool := 'A' ≤ c && c ≤ 'Z'

/-- Python substring test `pat in hay`. -/
def containsSub (hay pat : List Char) : Bool :=
  if pat.isPrefixOf hay then true
  else match hay with
    | [] => false
    | _ :: t => containsSub t pat

/-- Python `sep.join(parts)`. -/
def pyJoin (sep : List Char) : List (List Char) → List Char
  | [] => []
  | [p] => p
  | p :: rest => p ++ sep ++ pyJoin sep rest

/-- Decimal digits of a natural number. -/
def natToStr (n : Nat) : List Char := (Nat.toDigits 10 n)

/-- Python `str(...)` of an integer. -/
def intToStr (n : Int) : List Char :=
  if n < 0 then '-' :: natToStr n.natAbs else natToStr n.natAbs

/-- Value of a decimal digit list, `none` unless nonempty and all digits. -/
def digitsToNat : List Char → Option Nat
  | [] => none
  | cs =>
    if cs.all (fun c => '0' ≤ c && c ≤ '9') then
      some (cs.foldl (fun acc c => acc * 10 + (c.toNat - '0'.toNat)) 0)
    else none

/-- Python `int(s)` on a string: strip, optional sign, decimal digits. -/
def pyParseInt (s : List Char) : Option Int :=
  let t := pyStrip s
  match t with
  | '-' :: rest => (digitsToNat rest).map (fun n => -(n : Int))
  | '+' :: rest => (digitsToNat rest).map (fun n => (n : Int))
  | _ => (digitsToNat t).map (fun n => (n : Int))

/-! ## JSON values and Python dict/`or`/`str()` semantics -/

/-- JSON values as delivered by `response.json()`. -/
inductive JsonVal where
  | null
  | b (x : Bool)
  | i (n : Int)
  | s (cs : List Char)
  | arr (xs : List JsonVal)
  | obj (kvs : List (List Char × JsonVal))

/-- Python truthiness of a JSON value. -/
def pyTruthy : JsonVal → Bool
  | .null => false
  | .b x => x
  | .i n => n ≠ 0
  | .s cs => !cs.isEmpty
  | .arr xs => !xs.isEmpty
  | .obj kvs => !kvs.isEmpty

/-- Python `x or d`. -/
def pyOr (v d : JsonVal) : JsonVal := if pyTruthy v then v else d

/-- Lookup in an association list of JSON object members. -/
def memberLookup (k : List Char) : List (List Char × JsonVal) → Option JsonVal
  | [] => none
  | (k', v) :: rest => if k' = k then some v else memberLookup k rest

/-- Python `d.get(k, default)` on a value known to be a dict. -/
def dictGet (v : JsonVal) (k : List Char) (dflt : JsonVal) : JsonVal :=
  match v with
  | .obj kvs => (memberLookup k kvs).getD dflt
  | _ => dflt

/-- Python `d.get(k, default)`: raises `AttributeError` unless `d` is a dict. -/
def dictGetE (v : JsonVal) (k : List Char) (dflt : JsonVal) : Except Unit JsonVal :=
  match v with
  | .obj kvs => .ok ((memberLookup k kvs).getD dflt)
  | _ => .error ()

mutual
/-- Python `repr(...)` of a JSON value (string escaping not modelled). -/
def pyRepr : JsonVal → List Char
  | .null => "None".data
  | .b true => "True".data
  | .b false => "False".data
  | .i n => intToStr n
  | .s cs => '\x27' :: cs ++ ['\x27']
  | .arr xs => '[' :: pyReprArr xs ++ [']']
  | .obj kvs => '\x7b' :: pyReprObj kvs ++ ['\x7d']

/-- Comma-joined reprs of list elements. -/
def pyReprArr : List JsonVal → List Char
  | [] => []
  | [v] => pyRepr v
  | v :: rest => pyRepr v ++ ',' :: ' ' :: pyReprArr rest

/-- Comma-joined reprs of dict members. -/
def pyReprObj : List (List Char × JsonVal) → List Char
  | [] => []
  | [(k, v)] => '\x27' :: k ++ '\x27' :: ':' :: ' ' :: pyRepr v
  | (k, v) :: rest => ('\x27' :: k ++ '\x27' :: ':' :: ' ' :: pyRepr v) ++ ',' :: ' ' :: pyReprObj rest
end

/-- Python `str(...)` of a JSON value. -/
def pyStr : JsonVal → List Char
  | .s cs => cs
  | v => pyRepr v

/-- Python `int(...)` of a JSON value; `none` models a raised exception. -/
def pyInt : JsonVal → Option Int
  | .i n => some n
  | .b x => some (if x then 1 else 0)
  | .s cs => pyParseInt cs
  | _ => none

/-! ## Shared helpers duplicated across the scripts -/

/-- Matching `COUNTRY_TAIL_RE = re.compile(r",\s*([A-Z]\x7b2\x7d)\s*$")` at the
head of a list: a comma, whitespace, exactly two capital letters, trailing
whitespace, end of string.  Since `[A-Z]` never matches a whitespace
character, consuming the maximal run of whitespace is equivalent to the
backtracking regex semantics. -/
def countryTailMatch : List Char → Option (List Char)
  | [] => none
  | c :: rest =>
    if c = ',' then
      match rest.dropWhile pyIsSpace with
      | a :: b :: r2 =>
        if isUpperAlpha a && isUpperAlpha b && r2.all pyIsSpace then some [a, b] else none
      | _ => none
    else none

/-- `re.search` of `COUNTRY_TAIL_RE`: try each start position left to right. -/
def searchCountryTail : List Char → Option (List Char)
  | [] => none
  | c :: rest =>
    match countryTailMatch (c :: rest) with
    | some cc => some cc
    | none => searchCountryTail rest

/-- Embeds `infer_country_from_holder` (`sovereignty_audit.py`,
`asn_path_finder.py`) and the identical `infer_registration_country`
(`asn_integrity_audit.py`); a `None` holder is treated as the empty string
by `holder or ""`. -/
def infer_country_from_holder (holder : List Char) : List Char :=
  match searchCountryTail holder with
  | some cc => cc
  | none => "UNKNOWN".data

namespace SovereigntyAudit

/-- Embeds `normalise_asn` from `src/core/sovereignty_audit.py`:
`str(value).strip().upper()`, then prepend `"AS"` unless already present. -/
def normalise_asn (value : JsonVal) : List Char :=
  let text := pyUpper (pyStrip (pyStr value))
  if "AS".data.isPrefixOf text then text else 'A' :: 'S' :: text

end SovereigntyAudit

namespace AsnPathFinder

/-- Embeds `normalise_asn` from `src/core/asn_path_finder.py`: no strip, no
uppercasing of the result; the `"AS"` test is on `text.upper()`. -/
def normalise_asn (value : JsonVal) : List Char :=
  let text := pyStr value
  if "AS".data.isPrefixOf (pyUpper text) then text else 'A' :: 'S' :: text

end AsnPathFinder

namespace AsnIntegrityAudit

/-- Embeds `normalise_asn` from `src/core/asn_integrity_audit.py`. -/
def normalise_asn (value : List Char) : List Char :=
  let v := pyUpper (pyStrip value)
  if "AS".data.isPrefixOf v then v else 'A' :: 'S' :: v

end AsnIntegrityAudit

namespace BgpHijackCheck

/-- Embeds `normalise_asn` from `src/scripts/bgp_hijack_check.py`
(textually identical to the `asn_integrity_audit.py` variant). -/
def normalise_asn (value : List Char) : List Char :=
  let v := pyUpper (pyStrip value)
  if "AS".data.isPrefixOf v then v else 'A' :: 'S' :: v

end BgpHijackCheck

namespace IpGen

/-- Network address of `ipaddress.ip_network(pfx, strict=False)` for an IPv4
address value `a` with prefix length `plen`: the host bits are cleared. -/
def network_address (a plen : Nat) : Nat := a - a % 2 ^ (32 - plen)

/-- Broadcast address of the same network. -/
def broadcast_address (a plen : Nat) : Nat := network_address a plen + 2 ^ (32 - plen) - 1

/-- Embeds `random_ip_from_prefix` from `src/core/ip_gen.py`.  The network is
given by its parsed IPv4 address value and prefix length, and the outcome of
`random.randint(first_host, last_host)` is supplied by the oracle `pick`
(which, per the `randint` contract, returns a value inside the closed
interval). -/
def random_ip_from_prefix (pick : Nat → Nat → Nat) (a plen : Nat) : Nat :=
  if 31 ≤ plen then network_address a plen
  else pick (network_address a plen + 1) (broadcast_address a plen - 1)

end IpGen

/-! ## Shared data model for the analysis results -/

/-- `isinstance(v, dict)`. -/
def isDict : JsonVal → Bool
  | .obj _ => true
  | _ => false

/-- A path entity: `{"asn": ..., "holder": ..., "country": ...}`. -/
structure Entity where
  asn : List Char
  holder : List Char
  country : List Char
deriving DecidableEq

/-- An upstream-neighbour record built by `get_top_upstreams`/`get_upstreams`. -/
structure Upstream where
  asn : List Char
  power : Int
  v4_peers : Int
  v6_peers : Int
deriving DecidableEq

/-- `HIGH_RISK_COUNTRIES`, identical in `ip_lookup.py`, `asn_path_finder.py`,
`asn_integrity_audit.py` and `sovereignty_audit.py`. -/
def HIGH_RISK_COUNTRIES : List (List Char) :=
  ["RU".data, "CN".data, "IR".data, "KP".data, "SY".data]

/-- Association-list find, modelling Python `dict` lookup for the memo caches
(keys are inserted at most once, so ordering is irrelevant). -/
def assocFind (cache : List (List Char × Entity)) (k : List Char) : Option Entity :=
  match cache with
  | [] => none
  | (k', e) :: rest => if k' = k then some e else assocFind rest k

/-- String-to-string mapping lookup with a default (`dict.get(k, d)`). -/
def strLookupD (m : List (List Char × List Char)) (k d : List Char) : List Char :=
  match m with
  | [] => d
  | (k', v) :: rest => if k' = k then v else strLookupD rest k d

/-- Python string `<` (lexicographic by code point). -/
def lexLt : List Char → List Char → Bool
  | [], [] => false
  | [], _ :: _ => true
  | _ :: _, [] => false
  | x :: xs, y :: ys => if x < y then true else if y < x then false else lexLt xs ys

/-- Python `min` over a nonempty list of strings (first minimum wins);
`"UNKNOWN"` for the never-taken empty case. -/
def minString : List (List Char) → List Char
  | [] => "UNKNOWN".data
  | s :: rest => rest.foldl (fun acc t => if lexLt t acc then t else acc) s

/-- Python `max` over a nonempty list of strings (first maximum wins). -/
def maxString : List (List Char) → List Char
  | [] => "UNKNOWN".data
  | s :: rest => rest.foldl (fun acc t => if lexLt acc t then t else acc) s

/-! ## Extraction cores shared between `sovereignty_audit.py` and
`asn_path_finder.py` (textually duplicated there up to the `normalise_asn`
variant, which is passed as `norm`) -/

/-- Extraction body of `find_prefix_and_origin_from_ip` /
`get_prefix_and_origin` applied to the fetched `data` value. -/
def prefix_origin_core (norm : JsonVal → List Char) (data : JsonVal) :
    Except Unit (List Char × List Char × List Char) := do
  let resourceVal ← dictGetE data "resource".data .null
  let pfx := pyStr (pyOr resourceVal (.s "Unknown".data))
  let asns ← dictGetE data "asns".data (.arr [])
  match asns with
  | .arr [] => pure (pfx, "Unknown".data, "Unknown".data)
  | .arr (first0 :: _) =>
    let first := if isDict first0 then first0 else .obj []
    let origin_asn := norm (dictGet first "asn".data (.s "Unknown".data))
    let origin_holder := pyStr (pyOr (dictGet first "holder".data .null) (.s "Unknown".data))
    pure (pfx, origin_asn, origin_holder)
  | _ => pure (pfx, "Unknown".data, "Unknown".data)

/-- Extraction body of `get_path_from_prefix` / `get_live_as_path` applied to
the fetched `data` value. -/
def path_core (norm : JsonVal → List Char) (data : JsonVal) :
    Except Unit (List (List Char)) := do
  let statesVal ← dictGetE data "bgp_state".data (.arr [])
  match statesVal with
  | .arr [] => pure []
  | .arr (s0 :: _) =>
    let first := if isDict s0 then s0 else .obj []
    match dictGet first "path".data (.arr []) with
    | .arr path => pure (path.map norm)
    | _ => pure []
  | _ => pure []

/-- Sort key `int(n.get("power", 0) or 0)`, total with default `0` — only
used on elements where `pyInt` is known to succeed. -/
def upstreamKeyD (n : JsonVal) : Int :=
  (pyInt (pyOr (dictGet n "power".data (.i 0)) (.i 0))).getD 0

/-- One output record of the top-3 loop; `none` models a raised exception. -/
def mk_upstream (norm : JsonVal → List Char) (n : JsonVal) : Option Upstream := do
  let p ← pyInt (pyOr (dictGet n "power".data (.i 0)) (.i 0))
  let v4 ← pyInt (pyOr (dictGet n "v4_peers".data (.i 0)) (.i 0))
  let v6 ← pyInt (pyOr (dictGet n "v6_peers".data (.i 0)) (.i 0))
  pure ⟨norm (dictGet n "asn".data (.s "Unknown".data)), p, v4, v6⟩

/-- The filter `isinstance(n, dict) and str(n.get("type", "")).lower() == "left"`. -/
def isLeftNeighbour (n : JsonVal) : Bool :=
  isDict n && decide (pyLower (pyStr (dictGet n "type".data (.s []))) = "left".data)

/-- Body of `get_top_upstreams` applied to the `neighbours` value: filter the
left-type neighbours, stable-sort them by `power` descending (Python
`list.sort` with a key, modelled by the stable `insertionSort`), truncate to
three, and build the records; a key that `int(...)` cannot convert raises. -/
def upstreams_core (norm : JsonVal → List Char) (neighboursVal : JsonVal) :
    Except Unit (List Upstream) :=
  match neighboursVal with
  | .arr ns =>
    let left := ns.filter isLeftNeighbour
    match left.mapM (fun n => pyInt (pyOr (dictGet n "power".data (.i 0)) (.i 0))) with
    | none => .error ()
    | some _ =>
      let sorted := left.insertionSort (fun x y => upstreamKeyD y ≤ upstreamKeyD x)
      match (sorted.take 3).mapM ( mk_upstream norm) with
      | none => .error ()
      | some out => .ok out
  | _ => .ok []

namespace SovereigntyAudit

/-- `EU_EEA_COUNTRIES` from `src/core/sovereignty_audit.py`. -/
def EU_EEA_COUNTRIES : List (List Char) :=
  ["AT".data, "BE".data, "BG".data, "HR".data, "CY".data, "CZ".data, "DK".data,
   "EE".data, "FI".data, "FR".data, "DE".data, "GR".data, "HU".data, "IE".data,
   "IT".data, "LV".data, "LT".data, "LU".data, "MT".data, "NL".data, "PL".data,
   "PT".data, "RO".data, "SK".data, "SI".data, "ES".data, "SE".data, "IS".data,
   "LI".data, "NO".data]

/-- `FOREIGN_INTEL_KEYWORDS` from `src/core/sovereignty_audit.py`. -/
def FOREIGN_INTEL_KEYWORDS : List (List Char) :=
  ["ARVANCLOUD".data, "AMAZON".data, "GOOGLE".data, "TCI".data, "BEZEQ".data]

def PREFIX_OVERVIEW_URL : List Char :=
  "https://stat.ripe.net/data/prefix-overview/data.json".data
def BGP_STATE_URL : List Char :=
  "https://stat.ripe.net/data/bgp-state/data.json".data
def ASN_NEIGHBOURS_URL : List Char :=
  "https://stat.ripe.net/data/asn-neighbours/data.json".data
def AS_OVERVIEW_URL : List Char :=
  "https://stat.ripe.net/data/as-overview/data.json".data
def ANNOUNCED_PREFIXES_URL : List Char :=
  "https://stat.ripe.net/data/announced-prefixes/data.json".data
def RPKI_VALIDATION_URL : List Char :=
  "https://stat.ripe.net/data/rpki-validation/data.json".data

/-- Environment for `sovereignty_audit.py`: `fetch i url params` is the `i`-th
HTTP GET issued by the run (`requests.get` inside `get_json`; a network error
or non-2xx status is `Except.error`, a parsed body is `Except.ok`);
`is_ip_address` abstracts `ipaddress.ip_address` validity; `resolve_final`
abstracts `resolve_final_url_and_ip` (redirect-following GET plus DNS, not
directed at the RIPEstat API). -/
structure SovEnv where
  fetch : Nat → List Char → List (List Char × List Char) → Except Unit JsonVal
  is_ip_address : List Char → Bool
  resolve_final : List Char → Except Unit (List Char × List Char)

/-- Embeds `get_json`: one GET request, `raise_for_status`, then
`resp.json().get("data", {})` (which raises when the body is not a dict).
The second component counts the GET requests issued. -/
def get_json (env : SovEnv) (url : List Char) (params : List (List Char × List Char))
    (cnt : Nat) : Except Unit JsonVal × Nat :=
  match env.fetch cnt url params with
  | .error _ => (.error (), cnt + 1)
  | .ok body => (dictGetE body "data".data (.obj []), cnt + 1)

/-- Embeds `find_prefix_and_origin_from_ip`. -/
def find_prefix_and_origin_from_ip (env : SovEnv) (ip : List Char) (cnt : Nat) :
    Except Unit (List Char × List Char × List Char) × Nat :=
  match get_json env PREFIX_OVERVIEW_URL [("resource".data, ip)] cnt with
  | (.error e, n) => (.error e, n)
  | (.ok data, n) => (prefix_origin_core normalise_asn data, n)

/-- Embeds `find_prefix_from_asn`. -/
def find_prefix_from_asn (env : SovEnv) (asn : List Char) (cnt : Nat) :
    Except Unit (List Char) × Nat :=
  match get_json env ANNOUNCED_PREFIXES_URL [("resource".data, asn)] cnt with
  | (.error e, n) => (.error e, n)
  | (.ok data, n) =>
    ((do
      let prefixesVal ← dictGetE data "prefixes".data (.arr [])
      match prefixesVal with
      | .arr [] => pure "Unknown".data
      | .arr (p0 :: _) =>
        let first := if isDict p0 then p0 else .obj []
        pure (pyStr (pyOr (dictGet first "prefix".data .null) (.s "Unknown".data)))
      | _ => pure "Unknown".data), n)

/-- Embeds `get_path_from_prefix`. -/
def get_path_from_prefix (env : SovEnv) (pfx : List Char) (cnt : Nat) :
    Except Unit (List (List Char)) × Nat :=
  match get_json env BGP_STATE_URL [("resource".data, pfx)] cnt with
  | (.error e, n) => (.error e, n)
  | (.ok data, n) => (path_core normalise_asn data, n)

/-- Embeds `get_top_upstreams`. -/
def get_top_upstreams (env : SovEnv) (origin_asn : List Char) (cnt : Nat) :
    Except Unit (List Upstream) × Nat :=
  if origin_asn = "Unknown".data then (.ok [], cnt)
  else
    match get_json env ASN_NEIGHBOURS_URL [("resource".data, origin_asn)] cnt with
    | (.error e, n) => (.error e, n)
    | (.ok data, n) =>
      match dictGetE data "neighbours".data (.arr []) with
      | .error e => (.error e, n)
      | .ok nv => (upstreams_core normalise_asn nv, n)

/-- Embeds `get_asn_entity`. -/
def get_asn_entity (env : SovEnv) (asn : List Char) (cnt : Nat) :
    Except Unit Entity × Nat :=
  match get_json env AS_OVERVIEW_URL [("resource".data, asn)] cnt with
  | (.error e, n) => (.error e, n)
  | (.ok data, n) =>
    match dictGetE data "holder".data .null with
    | .error e => (.error e, n)
    | .ok hv =>
      let holder := pyStr (pyOr hv (.s "Unknown".data))
      (.ok ⟨asn, holder, infer_country_from_holder holder⟩, n)

/-- Extraction body of `rpki_state` applied to the fetched `data` value. -/
def rpki_state_core (data : JsonVal) : Except Unit (List Char) := do
  let status ← dictGetE data "status".data .null
  match status with
  | .s (c :: cs) => pure (pyLower (c :: cs))
  | _ => do
    let validity ← dictGetE data "validity".data .null
    match validity with
    | .obj kvs =>
      match dictGet (.obj kvs) "state".data .null with
      | .s (c :: cs) => pure (pyLower (c :: cs))
      | _ => pure "unknown".data
    | _ => pure "unknown".data

/-- Embeds `rpki_state`. -/
def rpki_state (env : SovEnv) (pfx origin_asn : List Char) (cnt : Nat) :
    Except Unit (List Char) × Nat :=
  if pfx = "Unknown".data ∨ origin_asn = "Unknown".data then (.ok "unknown".data, cnt)
  else
    match get_json env RPKI_VALIDATION_URL
        [("prefix".data, pfx), ("resource".data, origin_asn)] cnt with
    | (.error e, n) => (.error e, n)
    | (.ok data, n) => (rpki_state_core data, n)

/-- One guarded `get_asn_entity` fetch of the `collect_entities` loop: the
`try` body with the fallback entity substituted on exception. -/
def try_entity (env : SovEnv) (a : List Char) (cnt : Nat) : Entity × Nat :=
  let (r, n1) := get_asn_entity env a cnt
  (match r with
   | .ok e => e
   | .error _ => ⟨a, "Unknown".data, "UNKNOWN".data⟩, n1)

/-- Embeds the loop of `collect_entities`: the per-ASN cache dictionary, one
`get_asn_entity` fetch per uncached ASN, the fallback entity on exception. -/
def collect_entities_go (env : SovEnv) :
    List (List Char) → List (List Char × Entity) → Nat →
    List Entity × List (List Char × Entity) × Nat
  | [], cache, cnt => ([], cache, cnt)
  | a :: rest, cache, cnt =>
    match assocFind cache a with
    | some e =>
      let (out, c2, n2) := collect_entities_go env rest cache cnt
      (e :: out, c2, n2)
    | none =>
      let (ent, n1) := try_entity env a cnt
      let (out, c2, n2) := collect_entities_go env rest ((a, ent) :: cache) n1
      (ent :: out, c2, n2)

/-- Embeds `collect_entities`. -/
def collect_entities (env : SovEnv) (path : List (List Char)) (cnt : Nat) :
    List Entity × Nat :=
  let (out, _, n) := collect_entities_go env path [] cnt
  (out, n)

/-- The filter building `extra_eu`:
`e.get("country") not in EU_EEA_COUNTRIES and e.get("country") != "UNKNOWN"`. -/
def is_extra_eu (e : Entity) : Bool :=
  decide (e.country ∉ EU_EEA_COUNTRIES ∧ e.country ≠ "UNKNOWN".data)

/-- The filter building `high_risk`: `e.get("country") in HIGH_RISK_COUNTRIES`. -/
def is_high_risk_entity (e : Entity) : Bool :=
  decide (e.country ∈ HIGH_RISK_COUNTRIES)

/-- One entity's contribution to `intel_dependency_hits`: the first keyword
contained in the upper-cased holder, if any (`break` after the first). -/
def intel_hit (e : Entity) : Option (List Char × List Char × List Char) :=
  match FOREIGN_INTEL_KEYWORDS.find? (fun kw => containsSub (pyUpper e.holder) kw) with
  | some kw => some (e.asn, e.holder, kw)
  | none => none

/-- The dictionary returned by `audit`. -/
structure AuditResult where
  input : List Char
  final_url : List Char
  target_ip : List Char
  target_asn : List Char
  origin_holder : List Char
  pfx : List Char
  as_path : List (List Char)
  visual_path : List Char
  path_entities : List Entity
  upstreams_top3 : List Upstream
  rpki : List Char
  foreign_hijack_risk : Bool
  extra_eu_detour : Bool
  extra_eu_entries : List Entity
  path_contains_high_risk_jurisdiction : Bool
  high_risk_entries : List Entity
  foreign_intel_dependency_hits : List (List Char × List Char × List Char)
  sovereignty_score : List Char
deriving DecidableEq

/-- Embeds the input-resolution part of `audit` (lines 175-197): URL / IP /
ASN branch, producing `(final_url, target_ip, target_asn, origin_holder,
prefix)`. -/
def audit_resolve (env : SovEnv) (resource : List Char) (from_url : Bool) (cnt : Nat) :
    Except Unit (List Char × List Char × List Char × List Char × List Char) × Nat :=
  if from_url then
    match env.resolve_final resource with
    | .error _ => (.error (), cnt)
    | .ok (final_url, target_ip) =>
      match find_prefix_and_origin_from_ip env target_ip cnt with
      | (.error e, n) => (.error e, n)
      | (.ok (pfx, asn, holder), n) => (.ok (final_url, target_ip, asn, holder, pfx), n)
  else
    if env.is_ip_address resource then
      match find_prefix_and_origin_from_ip env resource cnt with
      | (.error e, n) => (.error e, n)
      | (.ok (pfx, asn, holder), n) => (.ok ([], resource, asn, holder, pfx), n)
    else
      let asn := normalise_asn (.s resource)
      match find_prefix_from_asn env asn cnt with
      | (.error e, n) => (.error e, n)
      | (.ok pfx, n) => (.ok ([], [], asn, "Unknown".data, pfx), n)

/-- Embeds the fallback lookup of `audit` (lines 193-197): when the target
ASN is empty or unknown, retry from the prefix head (`prefix.split("/")[0]`). -/
def audit_fix_asn (env : SovEnv) (pfx asn holder : List Char) (cnt : Nat) :
    Except Unit (List Char × List Char) × Nat :=
  if asn = [] ∨ asn = "Unknown".data then
    if pfx ≠ "Unknown".data then
      match find_prefix_and_origin_from_ip env (pfx.takeWhile (fun c => c != '/')) cnt with
      | (.error e, n) => (.error e, n)
      | (.ok (_, asn2, holder2), n) => (.ok (asn2, holder2), n)
    else (.ok ("Unknown".data, holder), cnt)
  else (.ok (asn, holder), cnt)

/-- Embeds `audit` from `src/core/sovereignty_audit.py`. -/
def audit (env : SovEnv) (resource : List Char) (from_url : Bool) (cnt : Nat) :
    Except Unit AuditResult × Nat :=
  match audit_resolve env resource from_url cnt with
  | (.error e, n) => (.error e, n)
  | (.ok (final_url, target_ip, asn0, holder0, pfx), n1) =>
    match audit_fix_asn env pfx asn0 holder0 n1 with
    | (.error e, n) => (.error e, n)
    | (.ok (target_asn, origin_holder), n2) =>
      match (if pfx ≠ "Unknown".data then get_path_from_prefix env pfx n2
             else (.ok [], n2)) with
      | (.error e, n) => (.error e, n)
      | (.ok path, n3) =>
        let (entities, n4) := collect_entities env path n3
        match get_top_upstreams env target_asn n4 with
        | (.error e, n) => (.error e, n)
        | (.ok upstreams, n5) =>
          match rpki_state env pfx target_asn n5 with
          | (.error e, n) => (.error e, n)
          | (.ok rpki, n6) =>
            let extra_eu := entities.filter is_extra_eu
            let high_risk := entities.filter is_high_risk_entity
            (.ok ⟨resource, final_url, target_ip, target_asn, origin_holder, pfx,
              path,
              (if path.isEmpty then "Not available".data else pyJoin " -> ".data path),
              entities, upstreams, rpki,
              decide (rpki = "invalid".data),
              decide (0 < extra_eu.length), extra_eu,
              decide (0 < high_risk.length), high_risk,
              entities.filterMap intel_hit,
              (if extra_eu.isEmpty then "Sovereign (EU-Only)".data
               else "Fragmented (Extra-EU Path)".data)⟩, n6)

end SovereigntyAudit

namespace AsnPathFinder

def RETRY_DELAY_SECONDS : Nat := 1

def PREFIX_OVERVIEW_URL : List Char :=
  "https://stat.ripe.net/data/prefix-overview/data.json".data
def BGP_STATE_URL : List Char :=
  "https://stat.ripe.net/data/bgp-state/data.json".data
def ASN_NEIGHBOURS_URL : List Char :=
  "https://stat.ripe.net/data/asn-neighbours/data.json".data
def AS_OVERVIEW_URL : List Char :=
  "https://stat.ripe.net/data/as-overview/data.json".data

/-- Environment for `asn_path_finder.py`: `fetch i url resource` is the `i`-th
GET request of the run, returning either a network error or a
`(status_code, parsed_body)` pair, so that a 429 on a first attempt and the
response to the retry can differ. -/
structure PfEnv where
  fetch : Nat → List Char → List Char → Except Unit (Nat × JsonVal)

/-- Embeds `request_json`: one GET; on status 429 sleep
`RETRY_DELAY_SECONDS` and re-issue the identical request exactly once;
`raise_for_status` on the final response (4xx/5xx raises); then
`response.json().get("data", {})`. -/
def request_json (env : PfEnv) (url resource : List Char) (cnt : Nat) :
    Except Unit JsonVal × Nat :=
  match env.fetch cnt url resource with
  | .error _ => (.error (), cnt + 1)
  | .ok (status, body) =>
    if status = 429 then
      match env.fetch (cnt + 1) url resource with
      | .error _ => (.error (), cnt + 2)
      | .ok (status2, body2) =>
        if 400 ≤ status2 ∧ status2 < 600 then (.error (), cnt + 2)
        else (dictGetE body2 "data".data (.obj []), cnt + 2)
    else if 400 ≤ status ∧ status < 600 then (.error (), cnt + 1)
    else (dictGetE body "data".data (.obj []), cnt + 1)

/-- Seconds slept by one `request_json` call (`time.sleep(RETRY_DELAY_SECONDS)`
runs exactly when the first response has status 429). -/
def request_json_sleep (env : PfEnv) (url resource : List Char) (cnt : Nat) : Nat :=
  match env.fetch cnt url resource with
  | .ok (429, _) => RETRY_DELAY_SECONDS
  | _ => 0

/-- Embeds `get_prefix_and_origin`. -/
def get_prefix_and_origin (env : PfEnv) (ip : List Char) (cnt : Nat) :
    Except Unit (List Char × List Char × List Char) × Nat :=
  match request_json env PREFIX_OVERVIEW_URL ip cnt with
  | (.error e, n) => (.error e, n)
  | (.ok data, n) => (prefix_origin_core normalise_asn data, n)

/-- Embeds `get_live_as_path`. -/
def get_live_as_path (env : PfEnv) (pfx : List Char) (cnt : Nat) :
    Except Unit (List (List Char)) × Nat :=
  if pfx = "Unknown".data then (.ok [], cnt)
  else
    match request_json env BGP_STATE_URL pfx cnt with
    | (.error e, n) => (.error e, n)
    | (.ok data, n) => (path_core normalise_asn data, n)

/-- Embeds `get_top_upstreams` (the `asn_path_finder.py` copy). -/
def get_top_upstreams (env : PfEnv) (origin_asn : List Char) (cnt : Nat) :
    Except Unit (List Upstream) × Nat :=
  if origin_asn = "Unknown".data then (.ok [], cnt)
  else
    match request_json env ASN_NEIGHBOURS_URL origin_asn cnt with
    | (.error e, n) => (.error e, n)
    | (.ok data, n) =>
      match dictGetE data "neighbours".data (.arr []) with
      | .error e => (.error e, n)
      | .ok nv => (upstreams_core normalise_asn nv, n)

/-- One guarded `request_json` fetch of the `enrich_path_jurisdictions` loop:
the holder/country extraction inside the `try`, with the Unknown fallback
entity substituted on exception. -/
def fetch_entity (env : PfEnv) (a : List Char) (cnt : Nat) : Entity × Nat :=
  let (r, n1) := request_json env AS_OVERVIEW_URL a cnt
  (match (do
    let data ← r
    let hv ← dictGetE data "holder".data .null
    let holder := pyStr (pyOr hv (.s "Unknown".data))
    pure (⟨a, holder, infer_country_from_holder holder⟩ : Entity)) with
   | .ok e => e
   | .error _ => ⟨a, "Unknown".data, "UNKNOWN".data⟩, n1)

/-- Embeds the loop of `enrich_path_jurisdictions`: the `seen` dictionary,
one `request_json` per unseen ASN and the holder/country extraction, all
guarded by the `try` that substitutes the Unknown fallback entity. -/
def enrich_go (env : PfEnv) :
    List (List Char) → List (List Char × Entity) → Nat →
    List (List Char × Entity) × Nat
  | [], seen, cnt => (seen, cnt)
  | a :: rest, seen, cnt =>
    match assocFind seen a with
    | some _ => enrich_go env rest seen cnt
    | none =>
      let (ent, n1) := fetch_entity env a cnt
      enrich_go env rest ((a, ent) :: seen) n1

/-- Embeds `enrich_path_jurisdictions`:
`[seen[a] for a in path_asns if a in seen]`. -/
def enrich_path_jurisdictions (env : PfEnv) (path : List (List Char)) (cnt : Nat) :
    List Entity × Nat :=
  let (seen, n) := enrich_go env path [] cnt
  (path.filterMap (fun a => assocFind seen a), n)

/-- The dictionary returned by `analyse`. -/
structure AnalyseResult where
  ip : List Char
  pfx : List Char
  origin_asn : List Char
  origin_holder : List Char
  as_path : List (List Char)
  visual_path : List Char
  path_asn_details : List Entity
  top_upstreams : List Upstream
  path_contains_high_risk_jurisdiction : Bool
  high_risk_path_entries : List Entity
deriving DecidableEq

/-- The filter `p.get("country") in HIGH_RISK_COUNTRIES`. -/
def is_high_risk_entity (e : Entity) : Bool :=
  decide (e.country ∈ HIGH_RISK_COUNTRIES)

/-- Embeds `analyse` from `src/core/asn_path_finder.py` (the two interleaved
`time.sleep` calls issue no requests). -/
def analyse (env : PfEnv) (ip : List Char) (cnt : Nat) :
    Except Unit AnalyseResult × Nat :=
  match get_prefix_and_origin env ip cnt with
  | (.error e, n) => (.error e, n)
  | (.ok (pfx, origin_asn, origin_holder), n1) =>
    match get_live_as_path env pfx n1 with
    | (.error e, n) => (.error e, n)
    | (.ok path_asns, n2) =>
      match get_top_upstreams env origin_asn n2 with
      | (.error e, n) => (.error e, n)
      | (.ok top, n3) =>
        let (details, n4) := enrich_path_jurisdictions env path_asns n3
        let high := details.filter is_high_risk_entity
        (.ok ⟨ip, pfx, origin_asn, origin_holder, path_asns,
          (if path_asns.isEmpty then "Not available".data
           else pyJoin " -> ".data path_asns),
          details, top, decide (0 < high.length), high⟩, n4)

end AsnPathFinder

namespace IpLookup

def PREFIX_OVERVIEW_URL : List Char :=
  "https://stat.ripe.net/data/prefix-overview/data.json".data
def RIR_STATS_COUNTRY_URL : List Char :=
  "https://stat.ripe.net/data/rir-stats-country/data.json".data
def ABUSE_CONTACT_URL : List Char :=
  "https://stat.ripe.net/data/abuse-contact-finder/data.json".data

/-- `CLOUD_INDICATORS` from `src/core/ip_lookup.py`. -/
def CLOUD_INDICATORS : List (List Char) :=
  ["AWS".data, "AMAZON".data, "GOOGLE".data, "AZURE".data, "HETZNER".data,
   "DIGITALOCEAN".data, "OVH".data]

/-- `ANONYMISER_INDICATORS` from `src/core/ip_lookup.py`. -/
def ANONYMISER_INDICATORS : List (List Char) :=
  ["VPN".data, "PROXY".data, "TOR".data, "MULLVAD".data]

/-- `COUNTRY_NAMES` from `src/core/ip_lookup.py`. -/
def COUNTRY_NAMES : List (List Char × List Char) :=
  [("GB".data, "United Kingdom".data), ("US".data, "United States".data),
   ("NL".data, "Netherlands".data), ("DE".data, "Germany".data),
   ("FR".data, "France".data), ("CH".data, "Switzerland".data),
   ("BE".data, "Belgium".data), ("ES".data, "Spain".data),
   ("IT".data, "Italy".data), ("SE".data, "Sweden".data),
   ("NO".data, "Norway".data), ("DK".data, "Denmark".data),
   ("PL".data, "Poland".data), ("IE".data, "Ireland".data),
   ("RU".data, "Russia".data), ("CN".data, "China".data),
   ("IR".data, "Iran".data), ("KP".data, "North Korea".data),
   ("SY".data, "Syria".data)]

/-- `RIR_DISPLAY_NAMES` from `src/core/ip_lookup.py`. -/
def RIR_DISPLAY_NAMES : List (List Char × List Char) :=
  [("AFRINIC".data, "AFRINIC".data), ("APNIC".data, "APNIC".data),
   ("ARIN".data, "ARIN".data), ("LACNIC".data, "LACNIC".data),
   ("RIPE".data, "RIPE NCC".data), ("UNKNOWN".data, "UNKNOWN".data)]

/-- The five RIR tokens tested by `extract_rir`, in source order. -/
def RIR_TOKENS : List (List Char) :=
  ["AFRINIC".data, "APNIC".data, "ARIN".data, "LACNIC".data, "RIPE".data]

/-- Environment for `ip_lookup.py`: `fetch url ip` models `fetch_json`
(`requests.get` + `raise_for_status` + `.json()`, returning the full
payload). -/
structure IpEnv where
  fetch : List Char → List Char → Except Unit JsonVal

/-- Embeds `contains_indicator`. -/
def contains_indicator (text : List Char) (indicators : List (List Char)) : Bool :=
  indicators.any (fun ind => containsSub (pyUpper text) ind)

/-- Embeds `extract_rir`. -/
def extract_rir (prefix_data abuse_data : JsonVal) : Except Unit (List Char) := do
  let av ← dictGetE abuse_data "authoritative_rir".data .null
  let authoritative_rir := pyUpper (pyStr (pyOr av (.s [])))
  if authoritative_rir ∈ RIR_TOKENS then
    pure authoritative_rir
  else do
    let block ← dictGetE prefix_data "block".data (.obj [])
    let block_desc :=
      match block with
      | .obj kvs => pyStr (pyOr (dictGet (.obj kvs) "desc".data .null) (.s []))
      | _ => []
    match RIR_TOKENS.find? (fun r => containsSub (pyUpper block_desc) r) with
    | some r => pure r
    | none => pure "UNKNOWN".data

/-- The dictionary returned by `analyse_ip`. -/
structure IpResult where
  ip : List Char
  asn : List Char
  holder : List Char
  country : List Char
  country_name : List Char
  rir : List Char
  is_high_risk : Bool
  is_cloud : Bool
  is_anonymised : Bool
  abuse_email : List Char
deriving DecidableEq

/-- Embeds `analyse_ip` from `src/core/ip_lookup.py`. -/
def analyse_ip (env : IpEnv) (ip : List Char) : Except Unit IpResult := do
  let prefix_payload ← env.fetch PREFIX_OVERVIEW_URL ip
  let country_payload ← env.fetch RIR_STATS_COUNTRY_URL ip
  let abuse_payload ← env.fetch ABUSE_CONTACT_URL ip
  let prefix_data ← dictGetE prefix_payload "data".data (.obj [])
  let asns ← dictGetE prefix_data "asns".data (.arr [])
  let asn_holder :=
    match asns with
    | .arr (first0 :: _) =>
      let first := if isDict first0 then first0 else .obj []
      let holder := pyStr (pyOr (dictGet first "holder".data .null) (.s "UNKNOWN".data))
      let asn_value :=
        match dictGet first "asn".data .null with
        | .null => "UNKNOWN".data
        | v => pyStr v
      (asn_value, holder)
    | _ => ("UNKNOWN".data, "UNKNOWN".data)
  let country_data ← dictGetE country_payload "data".data (.obj [])
  let located ← dictGetE country_data "located_resources".data (.arr [])
  let country :=
    match located with
    | .arr (first0 :: _) =>
      let firstLoc := if isDict first0 then first0 else .obj []
      match dictGet firstLoc "location".data .null with
      | .s (c :: cs) => pyUpper (c :: cs)
      | _ => "UNKNOWN".data
    | _ => "UNKNOWN".data
  let abuse_data ← dictGetE abuse_payload "data".data (.obj [])
  let abuse_contacts ← dictGetE abuse_data "abuse_contacts".data (.arr [])
  let abuse_email :=
    match abuse_contacts with
    | .arr (first0 :: _) =>
      match first0 with
      | .s cs => if (pyStrip cs).isEmpty then "UNKNOWN".data else pyStrip cs
      | _ => "UNKNOWN".data
    | _ => "UNKNOWN".data
  let tv ← dictGetE prefix_data "type".data .null
  let usage_type := pyStr (pyOr tv (.s "unknown".data))
  let detection_text := asn_holder.2 ++ ' ' :: usage_type
  let rir_code ← extract_rir prefix_data abuse_data
  pure ⟨ip, asn_holder.1, asn_holder.2, country,
    strLookupD COUNTRY_NAMES country "Unknown".data,
    strLookupD RIR_DISPLAY_NAMES rir_code rir_code,
    decide (country ∈ HIGH_RISK_COUNTRIES),
    contains_indicator asn_holder.2 CLOUD_INDICATORS,
    contains_indicator detection_text ANONYMISER_INDICATORS,
    abuse_email⟩

end IpLookup

namespace AsnIntegrityAudit

def AS_OVERVIEW_URL : List Char :=
  "https://stat.ripe.net/data/as-overview/data.json".data
def ANNOUNCED_PREFIXES_URL : List Char :=
  "https://stat.ripe.net/data/announced-prefixes/data.json".data
def ASN_NEIGHBOURS_URL : List Char :=
  "https://stat.ripe.net/data/asn-neighbours/data.json".data
def RIS_FIRST_LAST_SEEN_URL : List Char :=
  "https://stat.ripe.net/data/ris-first-last-seen/data.json".data
def PREFIX_OVERVIEW_URL : List Char :=
  "https://stat.ripe.net/data/prefix-overview/data.json".data

/-- Environment for `asn_integrity_audit.py`: `fetch url res` returns the
parsed response payload; `is_ip` abstracts `ipaddress.ip_address` validity
(`is_ip_resource`); `parse_iso` and `now` abstract the `datetime` library
(`parse_iso_time` on an ISO string yields a timestamp in seconds, `none` on
failure). -/
structure AsnEnv where
  fetch : List Char → List Char → Except Unit JsonVal
  is_ip : List Char → Bool
  parse_iso : List Char → Option Int
  now : Int

/-- Embeds `fetch_json`: GET, `raise_for_status`, `.json().get("data", {})`. -/
def fetch_json (env : AsnEnv) (url asn : List Char) : Except Unit JsonVal := do
  let body ← env.fetch url asn
  dictGetE body "data".data (.obj [])

/-- Embeds `resolve_asn_from_ip` (raises `RuntimeError` when no ASN mapping
is found). -/
def resolve_asn_from_ip (env : AsnEnv) (ip : List Char) : Except Unit (List Char) := do
  let body ← env.fetch PREFIX_OVERVIEW_URL ip
  let data ← dictGetE body "data".data (.obj [])
  let asns ← dictGetE data "asns".data (.arr [])
  match asns with
  | .arr (first0 :: _) =>
    let first := if isDict first0 then first0 else .obj []
    match dictGet first "asn".data .null with
    | .null => .error ()
    | v => pure (normalise_asn (pyStr v))
  | _ => .error ()

/-- Sort key `int(x.get("power", 0))` (no `or 0` fallback here), with the
default only used on elements where `pyInt` is known to succeed. -/
def upstreamKeyD (n : JsonVal) : Int :=
  (pyInt (dictGet n "power".data (.i 0))).getD 0

/-- One record of the top-3 loop of `get_upstreams`. -/
def mk_upstream (n : JsonVal) : Option Upstream := do
  let p ← pyInt (dictGet n "power".data (.i 0))
  let v4 ← pyInt (dictGet n "v4_peers".data (.i 0))
  let v6 ← pyInt (dictGet n "v6_peers".data (.i 0))
  pure ⟨normalise_asn (pyStr (dictGet n "asn".data (.s "UNKNOWN".data))), p, v4, v6⟩

/-- The list comprehension filtering left-type neighbours; `n.get` raises on
a non-dict element (there is no `isinstance` guard in this copy). -/
def filterLeftE : List JsonVal → Except Unit (List JsonVal)
  | [] => .ok []
  | n :: rest =>
    match n with
    | .obj kvs =>
      match filterLeftE rest with
      | .error e => .error e
      | .ok l =>
        if pyLower (pyStr (dictGet (.obj kvs) "type".data (.s []))) = "left".data
        then .ok (n :: l) else .ok l
    | _ => .error ()

/-- Embeds `get_upstreams` from `src/core/asn_integrity_audit.py`. -/
def get_upstreams (neighbours : List JsonVal) : Except Unit (List Upstream) :=
  match filterLeftE neighbours with
  | .error e => .error e
  | .ok left =>
    match left.mapM (fun n => pyInt (dictGet n "power".data (.i 0))) with
    | none => .error ()
    | some _ =>
      let sorted := left.insertionSort (fun x y => upstreamKeyD y ≤ upstreamKeyD x)
      match (sorted.take 3).mapM mk_upstream with
      | none => .error ()
      | some out => .ok out

/-- `str((r.get("first") or \x7b\x7d).get("time") or "")` for one resource
record (fallible: `r.get("first")` may be a truthy non-dict). -/
def seen_time (r : JsonVal) (key : List Char) : Except Unit (List Char) := do
  let fv := dictGet r key .null
  let tv ← dictGetE (pyOr fv (.obj [])) "time".data .null
  pure (pyStr (pyOr tv (.s [])))

/-- The loop collecting `first`/`last` time candidates over `resources`
(non-dict entries are skipped by the `continue`). -/
def seen_times : List JsonVal → Except Unit (List (List Char) × List (List Char))
  | [] => .ok ([], [])
  | r :: rest =>
    match r with
    | .obj kvs => do
      let f ← seen_time (.obj kvs) "first".data
      let l ← seen_time (.obj kvs) "last".data
      let (fs, ls) ← seen_times rest
      pure ((if f.isEmpty then fs else f :: fs), (if l.isEmpty then ls else l :: ls))
    | _ => seen_times rest

/-- The dictionary returned by `analyse_asn`. -/
structure AsnResult where
  input : List Char
  resolved_from_ip : Bool
  asn : List Char
  holder : List Char
  registration_country : List Char
  announced : Bool
  managed_prefix_count : Nat
  upstreams_top3 : List Upstream
  first_seen : List Char
  last_seen : List Char
  is_high_risk : Bool
  is_newly_established : Bool
deriving DecidableEq

/-- Embeds `analyse_asn` from `src/core/asn_integrity_audit.py`. -/
def analyse_asn (env : AsnEnv) (resource_input : List Char) : Except Unit AsnResult := do
  let raw := pyStrip resource_input
  let resolved_from_ip := env.is_ip raw
  let asn ← if resolved_from_ip then resolve_asn_from_ip env raw
            else pure (normalise_asn raw)
  let overview ← fetch_json env AS_OVERVIEW_URL asn
  let announced ← fetch_json env ANNOUNCED_PREFIXES_URL asn
  let neighbours ← fetch_json env ASN_NEIGHBOURS_URL asn
  let first_last_seen ← fetch_json env RIS_FIRST_LAST_SEEN_URL asn
  let hv ← dictGetE overview "holder".data .null
  let holder := pyStr (pyOr hv (.s "UNKNOWN".data))
  let av ← dictGetE overview "announced".data (.b false)
  let announced_status := pyTruthy av
  let pv ← dictGetE announced "prefixes".data (.arr [])
  let prefix_count : Nat := match pv with | .arr l => l.length | _ => 0
  let nv ← dictGetE neighbours "neighbours".data (.arr [])
  let neigh_list := match nv with | .arr l => l | _ => []
  let upstreams_top3 ← get_upstreams neigh_list
  let rv ← dictGetE first_last_seen "resources".data (.arr [])
  let seen ←
    match rv with
    | .arr (r0 :: rs) => do
      let (fs, ls) ← seen_times (r0 :: rs)
      pure ((if fs.isEmpty then "UNKNOWN".data else minString fs),
            (if ls.isEmpty then "UNKNOWN".data else maxString ls))
    | _ => pure ("UNKNOWN".data, "UNKNOWN".data)
  let registration_country := infer_country_from_holder holder
  let newly :=
    match (if seen.1 ≠ "UNKNOWN".data then env.parse_iso seen.1 else none) with
    | some t => decide (env.now - 365 * 86400 ≤ t)
    | none => false
  pure ⟨raw, resolved_from_ip, asn, holder, registration_country, announced_status,
    prefix_count, upstreams_top3, seen.1, seen.2,
    decide (registration_country ∈ HIGH_RISK_COUNTRIES), newly⟩

end AsnIntegrityAudit

namespace RpkiCheck

/-- The `validity` fallback of `extract_state`: a string `validity.state`
lower-cased when non-empty, else `"unknown"`; `data.get` raises on a
non-dict `data`. -/
def state_from_validity (data : JsonVal) : Except Unit (List Char) := do
  let validity ← dictGetE data "validity".data .null
  match validity with
  | .obj kvs =>
    match dictGet (.obj kvs) "state".data .null with
    | .s (c :: cs) => pure (pyLower (c :: cs))
    | _ => pure "unknown".data
  | _ => pure "unknown".data

/-- Embeds `extract_state` from `src/scripts/rpki_check.py`: prefer a
non-empty string `data.status`, else the `validity.state` fallback;
`payload.get`/`data.get` raise on non-dict values. -/
def extract_state (payload : JsonVal) : Except Unit (List Char) := do
  let data ← dictGetE payload "data".data (.obj [])
  let state ← dictGetE data "status".data .null
  match state with
  | .s (c :: cs) => pure (pyLower (c :: cs))
  | _ => state_from_validity data

end RpkiCheck

/-! ## Concrete environments used by witnesses and counterexamples -/

/-- A fetch oracle answering 429 to the first request and 200 with body
`\x7b"data": 7\x7d` to every later request. -/
def c5Env : AsnPathFinder.PfEnv :=
  ⟨fun i _ _ =>
    if i = 0 then .ok (429, .obj []) else .ok (200, .obj [("data".data, .i 7)])⟩

/-- Neighbour list for the C3 witness: one well-formed left neighbour and
one right neighbour. -/
def c3Ns : List JsonVal :=
  [.obj [("type".data, .s "left".data), ("power".data, .i 5),
         ("v4_peers".data, .i 1), ("v6_peers".data, .i 2), ("asn".data, .s "AS7".data)],
   .obj [("type".data, .s "right".data), ("power".data, .i 9)]]

/-- Neighbour list for the C3 witness of the `asn_integrity_audit` variant. -/
def c3Ns2 : List JsonVal :=
  [.obj [("type".data, .s "Left".data), ("power".data, .i 3),
         ("v4_peers".data, .i 0), ("v6_peers".data, .i 0), ("asn".data, .s "AS9".data)]]

/-- A fetch oracle for `ip_lookup` answering every request with an empty
dict body. -/
def c2IpEnv : IpLookup.IpEnv := ⟨fun _ _ => .ok (.obj [])⟩

/-- A fetch oracle for `asn_integrity_audit` answering every request with an
empty dict body; nothing parses as an IP or a timestamp. -/
def c2AsnEnv : AsnIntegrityAudit.AsnEnv :=
  ⟨fun _ _ => .ok (.obj []), fun _ => false, fun _ => none, 0⟩

/-- A fetch oracle for `sovereignty_audit` answering every request with an
empty dict body; nothing parses as an IP and URLs do not resolve. -/
def c1SovEnv : SovereigntyAudit.SovEnv :=
  ⟨fun _ _ _ => .ok (.obj []), fun _ => false, fun _ => .error ()⟩

/-- The concrete result of `analyse_ip` on the empty-dict oracle. -/
def c2rI : IpLookup.IpResult :=
  match IpLookup.analyse_ip c2IpEnv "1.2.3.4".data with
  | .ok r => r
  | .error _ => ⟨[], [], [], [], [], [], false, false, false, []⟩

/-- The concrete result of `analyse_asn` on the empty-dict oracle. -/
def c2rA : AsnIntegrityAudit.AsnResult :=
  match AsnIntegrityAudit.analyse_asn c2AsnEnv "as5".data with
  | .ok r => r
  | .error _ => ⟨[], false, [], [], [], false, 0, [], [], [], false, false⟩

/-- The concrete result of `audit` on the empty-dict oracle. -/
def c1rS : SovereigntyAudit.AuditResult :=
  match (SovereigntyAudit.audit c1SovEnv "1".data false 0).1 with
  | .ok r => r
  | .error _ =>
    ⟨[], [], [], [], [], [], [], [], [], [], [], false, false, [], false, [], [], []⟩

/-- The request count of that `audit` run. -/
def c1n : Nat := (SovereigntyAudit.audit c1SovEnv "1".data false 0).2

/-! ## Spec-side naive (memo-free) enrichment, for the refinement claim -/

/-- Spec-side description of one naive `collect_entities` element: the entity
a direct guarded `get_asn_entity` fetch at call index `cnt` produces, with the
`\x7bholder: Unknown, country: UNKNOWN\x7d` fallback on exception. -/
def naive_sov_entity (env : SovereigntyAudit.SovEnv) (a : List Char) (cnt : Nat) : Entity :=
  (SovereigntyAudit.try_entity env a cnt).1

/-- Spec-side naive `collect_entities`: per-element direct fetching with no
memo dictionary. -/
def naive_collect_entities (env : SovereigntyAudit.SovEnv)
    (path : List (List Char)) : List Entity :=
  path.map (fun a => naive_sov_entity env a 0)

/-- Spec-side description of one naive `enrich_path_jurisdictions` element:
the entity one direct guarded `request_json` fetch at call index `cnt`
produces, with the fallback entity on exception. -/
def naive_pf_entity (env : AsnPathFinder.PfEnv) (a : List Char) (cnt : Nat) : Entity :=
  (AsnPathFinder.fetch_entity env a cnt).1

/-- Spec-side naive `enrich_path_jurisdictions`: per-element direct fetching
with no `seen` dictionary. -/
def naive_enrich_path (env : AsnPathFinder.PfEnv)
    (path : List (List Char)) : List Entity :=
  path.map (fun a => naive_pf_entity env a 0)

/-- A deterministic fetch oracle for `asn_path_finder` answering every request
with status 200 and an empty dict body. -/
def c8PfEnv : AsnPathFinder.PfEnv := ⟨fun _ _ _ => .ok (200, .obj [])⟩

/-- Number of elements of `path` outside `seenKeys`, counted once each: the
number of cache misses (hence per-ASN fetches) of the enrichment loops. -/
def distinct_new : List (List Char) → List (List Char) → Nat
  | [], _ => 0
  | a :: rest, seenKeys =>
    if a ∈ seenKeys then distinct_new rest seenKeys
    else distinct_new rest (a :: seenKeys) + 1

/-- A fetch oracle for `asn_path_finder` whose prefix-overview answer carries
one origin ASN and whose bgp-state answer carries a four-hop AS path. -/
def c4Env : AsnPathFinder.PfEnv :=
  ⟨fun _ url _ =>
    if url = AsnPathFinder.PREFIX_OVERVIEW_URL then
      .ok (200, .obj [("data".data, .obj
        [("resource".data, .s "1.0.0.0/8".data),
         ("asns".data, .arr [.obj [("asn".data, .i 1), ("holder".data, .s "H".data)]])])])
    else if url = AsnPathFinder.BGP_STATE_URL then
      .ok (200, .obj [("data".data, .obj
        [("bgp_state".data, .arr [.obj [("path".data,
            .arr [.i 1, .i 2, .i 3, .i 4])]])])])
    else .ok (200, .obj [])⟩

/-- The concrete result of `analyse` on that oracle. -/
def c4r : AsnPathFinder.AnalyseResult :=
  match (AsnPathFinder.analyse c4Env "9.9.9.9".data 0).1 with
  | .ok r => r
  | .error _ => ⟨[], [], [], [], [], [], [], [], false, []⟩

/-- The request count of that `analyse` run. -/
def c4n : Nat := (AsnPathFinder.analyse c4Env "9.9.9.9".data 0).2

/-- C10: for every valid IPv4 network and every outcome of the random source
(an oracle `pick` meeting the `random.randint` contract),
`random_ip_from_prefix` returns an address contained in that network; for
prefix length 31 or 32 the result is exactly the network address, and for
prefix length at most 30 it is strictly between the network address and the
broadcast address. -/
theorem c10_random_ip_from_prefix_in_network
    (pick : Nat → Nat → Nat)
    (hpick : ∀ x y, x ≤ y → x ≤ pick x y ∧ pick x y ≤ y)
    (a plen : Nat) (hplen : plen ≤ 32) (ha : a < 2 ^ 32) :
    IpGen.network_address a plen ≤ IpGen.random_ip_from_prefix pick a plen ∧
    IpGen.random_ip_from_prefix pick a plen ≤ IpGen.broadcast_address a plen ∧
    IpGen.random_ip_from_prefix pick a plen < 2 ^ 32 ∧
    (31 ≤ plen → IpGen.random_ip_from_prefix pick a plen = IpGen.network_address a plen) ∧
    (plen ≤ 30 →
      IpGen.network_address a plen < IpGen.random_ip_from_prefix pick a plen ∧
      IpGen.random_ip_from_prefix pick a plen < IpGen.broadcast_address a plen) := by
  have h2 : (0 : Nat) < 2 ^ (32 - plen) := Nat.two_pow_pos _
  have hdm := Nat.div_add_mod a (2 ^ (32 - plen))
  have hmod : a % 2 ^ (32 - plen) < 2 ^ (32 - plen) := Nat.mod_lt _ h2
  have hsplit : 2 ^ (32 - plen) * 2 ^ plen = 2 ^ 32 := by
    rw [← Nat.pow_add]
    congr 1
    omega
  have hqlt : a / 2 ^ (32 - plen) < 2 ^ plen := by
    rw [Nat.div_lt_iff_lt_mul h2, Nat.mul_comm]
    omega
  have hbound : 2 ^ (32 - plen) * (a / 2 ^ (32 - plen)) + 2 ^ (32 - plen) ≤ 2 ^ 32 := by
    have h1 : 2 ^ (32 - plen) * (a / 2 ^ (32 - plen) + 1) ≤ 2 ^ (32 - plen) * 2 ^ plen :=
      Nat.mul_le_mul_left _ hqlt
    rw [Nat.mul_succ] at h1
    omega
  unfold IpGen.random_ip_from_prefix IpGen.broadcast_address IpGen.network_address
  by_cases h31 : 31 ≤ plen
  · simp only [if_pos h31]
    exact ⟨by omega, by omega, by omega, fun _ => trivial, fun hle => by omega⟩
  · simp only [if_neg h31]
    have hk4 : (4 : Nat) ≤ 2 ^ (32 - plen) := by
      calc (4 : Nat) = 2 ^ 2 := by norm_num
        _ ≤ 2 ^ (32 - plen) := Nat.pow_le_pow_right (by norm_num) (by omega)
    have hp := hpick (a - a % 2 ^ (32 - plen) + 1)
      (a - a % 2 ^ (32 - plen) + 2 ^ (32 - plen) - 1 - 1) (by omega)
    omega

/-! ## C5: the single fixed-delay retry of request_json -/

/-- C5: `request_json` performs exactly one fixed-delay retry on rate
limiting: a first response with status 429 causes a sleep of the fixed
`RETRY_DELAY_SECONDS` (1 second) and exactly one re-issue of the identical
request (same call, next request index), after which the request count is
exactly two; for any other first status no retry occurs and no delay is
slept; a 4xx/5xx status on the non-429 path or on the retried response
propagates as an error with no further retries. -/
theorem c5_request_json_retry (env : AsnPathFinder.PfEnv) (url resource : List Char)
    (cnt : Nat) :
    (∀ e, env.fetch cnt url resource = .error e →
      AsnPathFinder.request_json env url resource cnt = (.error (), cnt + 1) ∧
      AsnPathFinder.request_json_sleep env url resource cnt = 0) ∧
    (∀ s b, env.fetch cnt url resource = .ok (s, b) → s ≠ 429 →
      AsnPathFinder.request_json env url resource cnt =
        ((if 400 ≤ s ∧ s < 600 then .error () else dictGetE b "data".data (.obj [])),
          cnt + 1) ∧
      AsnPathFinder.request_json_sleep env url resource cnt = 0) ∧
    (∀ b, env.fetch cnt url resource = .ok (429, b) →
      AsnPathFinder.request_json_sleep env url resource cnt =
        AsnPathFinder.RETRY_DELAY_SECONDS ∧
      (AsnPathFinder.request_json env url resource cnt).2 = cnt + 2 ∧
      (∀ e2, env.fetch (cnt + 1) url resource = .error e2 →
        AsnPathFinder.request_json env url resource cnt = (.error (), cnt + 2)) ∧
      (∀ s2 b2, env.fetch (cnt + 1) url resource = .ok (s2, b2) →
        AsnPathFinder.request_json env url resource cnt =
          ((if 400 ≤ s2 ∧ s2 < 600 then .error ()
            else dictGetE b2 "data".data (.obj [])), cnt + 2))) := by
  refine ⟨?_, ?_, ?_⟩
  · intro e he
    unfold AsnPathFinder.request_json AsnPathFinder.request_json_sleep
    rw [he]
    exact ⟨rfl, rfl⟩
  · intro s b hsb hs
    unfold AsnPathFinder.request_json AsnPathFinder.request_json_sleep
    rw [hsb]
    dsimp only
    constructor
    · rw [if_neg hs]
      split <;> rfl
    · split
      · rename_i x hmatch
        injection hmatch with hpair
        injection hpair with h1 h2
        exact absurd h1 hs
      · rfl
  · intro b hb
    unfold AsnPathFinder.request_json AsnPathFinder.request_json_sleep
    rw [hb]
    dsimp only
    refine ⟨rfl, ?_, ?_, ?_⟩
    · rw [if_pos rfl]
      cases h2 : env.fetch (cnt + 1) url resource with
      | error e2 => rfl
      | ok v2 =>
        obtain ⟨s2, b2⟩ := v2
        dsimp only
        by_cases hrange : 400 ≤ s2 ∧ s2 < 600
        · rw [if_pos hrange]
        · rw [if_neg hrange]
    · intro e2 he2
      rw [if_pos rfl, he2]
    · intro s2 b2 hs2
      rw [if_pos rfl, hs2]
      dsimp only
      split <;> rfl

/-- Witness for C5: with a first response of 429 and a successful retry, one
second is slept, the identical request is re-issued once, and the data field
of the second body is returned after exactly two GETs. -/
theorem c5_witness :
    AsnPathFinder.request_json_sleep c5Env AsnPathFinder.AS_OVERVIEW_URL "AS1".data 0 =
      AsnPathFinder.RETRY_DELAY_SECONDS ∧
    AsnPathFinder.request_json c5Env AsnPathFinder.AS_OVERVIEW_URL "AS1".data 0 =
      (.ok (.i 7), 2) := by
  have h :=
    (c5_request_json_retry c5Env AsnPathFinder.AS_OVERVIEW_URL "AS1".data 0).2.2
      (.obj []) rfl
  refine ⟨h.1, ?_⟩
  rw [h.2.2.2 200 (.obj [("data".data, .i 7)]) rfl]
  rfl

/-! ## C6: default fallbacks of the field-extraction logic -/

/-- Counterexample for C6: the claim says none of the extraction functions
raises an exception on any dictionary input, but `extract_state` applied to
the dictionary `\x7b"data": 5\x7d` raises `AttributeError` (`5` has no
`.get`), modelled as `Except.error`. -/
theorem c6_counterexample :
    RpkiCheck.extract_state (.obj [("data".data, .i 5)]) = .error () := rfl

theorem exc_bind_ok {α β : Type} (a : α) (f : α → Except Unit β) :
    (Except.ok a >>= f) = f a := rfl

theorem dictGetE_obj (kvs : List (List Char × JsonVal)) (k : List Char) (d : JsonVal) :
    dictGetE (.obj kvs) k d = .ok (dictGet (.obj kvs) k d) := by
  simp [dictGetE, dictGet]

theorem state_from_validity_unknown (dkvs : List (List Char × JsonVal))
    (hvalidity : ∀ vkvs, dictGet (.obj dkvs) "validity".data .null = .obj vkvs →
      ¬ ∃ cs, dictGet (.obj vkvs) "state".data .null = .s cs) :
    RpkiCheck.state_from_validity (.obj dkvs) = .ok "unknown".data := by
  unfold RpkiCheck.state_from_validity
  rw [dictGetE_obj]
  simp only [exc_bind_ok]
  cases hv : dictGet (.obj dkvs) "validity".data .null with
  | obj vkvs =>
    dsimp only
    cases hstate : dictGet (.obj vkvs) "state".data .null with
    | s scs => exact absurd ⟨scs, hstate⟩ (hvalidity vkvs hv)
    | null => rfl
    | b v => rfl
    | i n => rfl
    | arr l => rfl
    | obj o => rfl
  | null => rfl
  | b v => rfl
  | i n => rfl
  | s cs => rfl
  | arr l => rfl

theorem state_from_validity_ok (dkvs : List (List Char × JsonVal)) :
    ∃ r, RpkiCheck.state_from_validity (.obj dkvs) = .ok r := by
  unfold RpkiCheck.state_from_validity
  rw [dictGetE_obj]
  simp only [exc_bind_ok]
  cases dictGet (.obj dkvs) "validity".data .null with
  | obj vkvs =>
    dsimp only
    cases dictGet (.obj vkvs) "state".data .null with
    | s scs =>
      cases scs with
      | nil => exact ⟨_, rfl⟩
      | cons c cs => exact ⟨_, rfl⟩
    | null => exact ⟨_, rfl⟩
    | b v => exact ⟨_, rfl⟩
    | i n => exact ⟨_, rfl⟩
    | arr l => exact ⟨_, rfl⟩
    | obj o => exact ⟨_, rfl⟩
  | null => exact ⟨_, rfl⟩
  | b v => exact ⟨_, rfl⟩
  | i n => exact ⟨_, rfl⟩
  | s cs => exact ⟨_, rfl⟩
  | arr l => exact ⟨_, rfl⟩

/-- C6 (amended): the extraction logic is total with the stated default
fallbacks on dictionary-shaped data: `find_prefix_and_origin_from_ip`'s
extraction returns `(prefix, "Unknown", "Unknown")` when the `asns` field of
a dict `data` is missing, not a list, or empty; `get_path_from_prefix`'s
extraction returns `[]` when `bgp_state` is missing, not a list, or empty,
or when `path` is missing, not a list, or empty; `extract_state` returns
`"unknown"` when its payload's dict-valued `data` member has neither a
non-empty string `status` nor a string `validity.state`; and none of them
raises on a dictionary input provided the consulted `data` member is itself
a dictionary (without that proviso `extract_state` can raise, see the
counterexample). -/
theorem c6_extraction_defaults :
    (∀ (norm : JsonVal → List Char) (kvs : List (List Char × JsonVal)),
      (¬ ∃ x xs, dictGet (.obj kvs) "asns".data (.arr []) = .arr (x :: xs)) →
      ∃ p, prefix_origin_core norm (.obj kvs) =
        .ok (p, "Unknown".data, "Unknown".data)) ∧
    (∀ (norm : JsonVal → List Char) (kvs : List (List Char × JsonVal)),
      ((¬ ∃ x xs, dictGet (.obj kvs) "bgp_state".data (.arr []) = .arr (x :: xs)) ∨
       (∃ x xs, dictGet (.obj kvs) "bgp_state".data (.arr []) = .arr (x :: xs) ∧
         ¬ ∃ p ps, dictGet (if isDict x then x else .obj []) "path".data (.arr []) =
           .arr (p :: ps))) →
      path_core norm (.obj kvs) = .ok []) ∧
    (∀ (pkvs dkvs : List (List Char × JsonVal)),
      dictGet (.obj pkvs) "data".data (.obj []) = .obj dkvs →
      (¬ ∃ c cs, dictGet (.obj dkvs) "status".data .null = .s (c :: cs)) →
      (∀ vkvs, dictGet (.obj dkvs) "validity".data .null = .obj vkvs →
        ¬ ∃ cs, dictGet (.obj vkvs) "state".data .null = .s cs) →
      RpkiCheck.extract_state (.obj pkvs) = .ok "unknown".data) ∧
    (∀ (norm : JsonVal → List Char) (kvs : List (List Char × JsonVal)),
      ∃ r, prefix_origin_core norm (.obj kvs) = .ok r) ∧
    (∀ (norm : JsonVal → List Char) (kvs : List (List Char × JsonVal)),
      ∃ r, path_core norm (.obj kvs) = .ok r) ∧
    (∀ (pkvs dkvs : List (List Char × JsonVal)),
      dictGet (.obj pkvs) "data".data (.obj []) = .obj dkvs →
      ∃ r, RpkiCheck.extract_state (.obj pkvs) = .ok r) := by
  refine ⟨?_, ?_, ?_, ?_, ?_, ?_⟩
  · intro norm kvs hcond
    unfold prefix_origin_core
    rw [dictGetE_obj]
    simp only [exc_bind_ok]
    rw [dictGetE_obj]
    simp only [exc_bind_ok]
    cases ha : dictGet (.obj kvs) "asns".data (.arr []) with
    | arr l =>
      cases l with
      | nil => exact ⟨_, rfl⟩
      | cons x xs => exact absurd ⟨x, xs, ha⟩ hcond
    | null => exact ⟨_, rfl⟩
    | b v => exact ⟨_, rfl⟩
    | i n => exact ⟨_, rfl⟩
    | s cs => exact ⟨_, rfl⟩
    | obj o => exact ⟨_, rfl⟩
  · intro norm kvs hcond
    unfold path_core
    rw [dictGetE_obj]
    simp only [exc_bind_ok]
    cases hs : dictGet (.obj kvs) "bgp_state".data (.arr []) with
    | arr l =>
      cases l with
      | nil => rfl
      | cons x xs =>
        dsimp only
        rcases hcond with hno | ⟨x2, xs2, hx2, hpath⟩
        · exact absurd ⟨x, xs, hs⟩ hno
        · rw [hs] at hx2
          injection hx2 with hx2
          injection hx2 with hx1 hxtail
          subst hx1
          cases hp : dictGet (if isDict x then x else .obj []) "path".data (.arr []) with
          | arr pl =>
            cases pl with
            | nil => rfl
            | cons p ps => exact absurd ⟨p, ps, hp⟩ hpath
          | null => rfl
          | b v => rfl
          | i n => rfl
          | s cs => rfl
          | obj o => rfl
    | null => rfl
    | b v => rfl
    | i n => rfl
    | s cs => rfl
    | obj o => rfl
  · intro pkvs dkvs hdata hstatus hvalidity
    unfold RpkiCheck.extract_state
    rw [dictGetE_obj, hdata]
    simp only [exc_bind_ok]
    rw [dictGetE_obj]
    simp only [exc_bind_ok]
    cases hst : dictGet (.obj dkvs) "status".data .null with
    | s cs =>
      cases cs with
      | cons c cs2 => exact absurd ⟨c, cs2, hst⟩ hstatus
      | nil => exact state_from_validity_unknown dkvs hvalidity
    | null => exact state_from_validity_unknown dkvs hvalidity
    | b v => exact state_from_validity_unknown dkvs hvalidity
    | i n => exact state_from_validity_unknown dkvs hvalidity
    | arr l => exact state_from_validity_unknown dkvs hvalidity
    | obj o => exact state_from_validity_unknown dkvs hvalidity
  · intro norm kvs
    unfold prefix_origin_core
    rw [dictGetE_obj]
    simp only [exc_bind_ok]
    rw [dictGetE_obj]
    simp only [exc_bind_ok]
    cases dictGet (.obj kvs) "asns".data (.arr []) with
    | arr l =>
      cases l with
      | nil => exact ⟨_, rfl⟩
      | cons x xs => exact ⟨_, rfl⟩
    | null => exact ⟨_, rfl⟩
    | b v => exact ⟨_, rfl⟩
    | i n => exact ⟨_, rfl⟩
    | s cs => exact ⟨_, rfl⟩
    | obj o => exact ⟨_, rfl⟩
  · intro norm kvs
    unfold path_core
    rw [dictGetE_obj]
    simp only [exc_bind_ok]
    cases dictGet (.obj kvs) "bgp_state".data (.arr []) with
    | arr l =>
      cases l with
      | nil => exact ⟨_, rfl⟩
      | cons x xs =>
        dsimp only
        cases dictGet (if isDict x then x else .obj []) "path".data (.arr []) with
        | arr pl => exact ⟨_, rfl⟩
        | null => exact ⟨_, rfl⟩
        | b v => exact ⟨_, rfl⟩
        | i n => exact ⟨_, rfl⟩
        | s cs => exact ⟨_, rfl⟩
        | obj o => exact ⟨_, rfl⟩
    | null => exact ⟨_, rfl⟩
    | b v => exact ⟨_, rfl⟩
    | i n => exact ⟨_, rfl⟩
    | s cs => exact ⟨_, rfl⟩
    | obj o => exact ⟨_, rfl⟩
  · intro pkvs dkvs hdata
    unfold RpkiCheck.extract_state
    rw [dictGetE_obj, hdata]
    simp only [exc_bind_ok]
    rw [dictGetE_obj]
    simp only [exc_bind_ok]
    cases dictGet (.obj dkvs) "status".data .null with
    | s cs =>
      cases cs with
      | cons c cs2 => exact ⟨_, rfl⟩
      | nil => exact state_from_validity_ok dkvs
    | null => exact state_from_validity_ok dkvs
    | b v => exact state_from_validity_ok dkvs
    | i n => exact state_from_validity_ok dkvs
    | arr l => exact state_from_validity_ok dkvs
    | obj o => exact state_from_validity_ok dkvs

/-- Witness for C6: defaults on concrete dictionaries — an empty data dict
yields the Unknown triple and the empty path, and a payload whose data dict
is empty yields the unknown RPKI state. -/
theorem c6_witness :
    (∃ p, prefix_origin_core SovereigntyAudit.normalise_asn (.obj []) =
      .ok (p, "Unknown".data, "Unknown".data)) ∧
    path_core SovereigntyAudit.normalise_asn (.obj []) = .ok [] ∧
    RpkiCheck.extract_state (.obj [("data".data, .obj [])]) = .ok "unknown".data :=
  ⟨c6_extraction_defaults.1 SovereigntyAudit.normalise_asn []
      (by rintro ⟨x, xs, h⟩; simp [dictGet, memberLookup] at h),
   c6_extraction_defaults.2.1 SovereigntyAudit.normalise_asn []
      (Or.inl (by rintro ⟨x, xs, h⟩; simp [dictGet, memberLookup] at h)),
   c6_extraction_defaults.2.2.1 [("data".data, .obj [])] [] rfl
      (by rintro ⟨c, cs, h⟩; simp [dictGet, memberLookup] at h)
      (by intro vkvs h; simp [dictGet, memberLookup] at h)⟩

/-! ## C3: properties of the top-3 upstream selection -/

instance {ε α : Type} [DecidableEq ε] [DecidableEq α] : DecidableEq (Except ε α) :=
  fun x y =>
  match x, y with
  | .ok a, .ok b =>
    match decEq a b with
    | .isTrue h => .isTrue (h ▸ rfl)
    | .isFalse h => .isFalse (fun hh => h (by injection hh))
  | .ok _, .error _ => .isFalse (fun hh => Except.noConfusion hh)
  | .error _, .ok _ => .isFalse (fun hh => Except.noConfusion hh)
  | .error e, .error f =>
    match decEq e f with
    | .isTrue h => .isTrue (h ▸ rfl)
    | .isFalse h => .isFalse (fun hh => h (by injection hh))

theorem mapM_option_forall2 {α β : Type} {f : α → Option β} :
    ∀ {l : List α} {out : List β}, l.mapM f = some out →
      List.Forall₂ (fun a b => f a = some b) l out := by
  intro l
  induction l with
  | nil =>
    intro out h
    rw [List.mapM_nil] at h
    injection h with h
    subst h
    exact List.Forall₂.nil
  | cons a t ih =>
    intro out h
    rw [List.mapM_cons] at h
    cases hfa : f a with
    | none => rw [hfa] at h; exact absurd h (by simp)
    | some b =>
      rw [hfa] at h
      cases hmt : t.mapM f with
      | none => rw [hmt] at h; exact absurd h (by simp)
      | some bs =>
        rw [hmt] at h
        simp only [Option.bind_eq_bind, Option.bind_some] at h
        injection h with h
        subst h
        exact List.Forall₂.cons hfa (ih hmt)

theorem forall2_mem_right {α β : Type} {R : α → β → Prop} :
    ∀ {l : List α} {out : List β}, List.Forall₂ R l out → ∀ {b}, b ∈ out →
      ∃ a ∈ l, R a b := by
  intro l out h
  induction h with
  | nil => intro b hb; cases hb
  | cons hR _ ih =>
    intro b hb
    rcases hb with _ | ⟨_, hb⟩
    · exact ⟨_, List.mem_cons_self _ _, hR⟩
    · obtain ⟨a, ha, haR⟩ := ih hb
      exact ⟨a, List.mem_cons_of_mem _ ha, haR⟩

theorem forall2_mem_left {α β : Type} {R : α → β → Prop} :
    ∀ {l : List α} {out : List β}, List.Forall₂ R l out → ∀ {a}, a ∈ l →
      ∃ b ∈ out, R a b := by
  intro l out h
  induction h with
  | nil => intro a ha; cases ha
  | cons hR _ ih =>
    intro a ha
    rcases ha with _ | ⟨_, ha⟩
    · exact ⟨_, List.mem_cons_self _ _, hR⟩
    · obtain ⟨b, hb, hbR⟩ := ih ha
      exact ⟨b, List.mem_cons_of_mem _ hb, hbR⟩

theorem pairwise_of_forall2 {α β : Type} {R : α → β → Prop} {S : α → α → Prop}
    {T : β → β → Prop}
    (hST : ∀ a b a' b', R a a' → R b b' → S a b → T a' b') :
    ∀ {l : List α} {out : List β}, List.Forall₂ R l out → List.Pairwise S l →
      List.Pairwise T out := by
  intro l out h
  induction h with
  | nil => intro _; exact List.Pairwise.nil
  | cons hR hrest ih =>
    intro hp
    rcases List.pairwise_cons.mp hp with ⟨hhead, htail⟩
    refine List.Pairwise.cons ?_ (ih htail)
    intro b' hb'
    obtain ⟨b, hb, hbR⟩ := forall2_mem_right hrest hb'
    exact hST _ _ _ _ hR hbR (hhead b hb)

/-- Core property of the sort-truncate-build pattern shared by the two
upstream selectors: at most three records, non-increasing `power`, every
record built from a member of the filtered list, and no member of the
filtered list beats any returned record. -/
theorem topTake_props (key : JsonVal → Int) (mk : JsonVal → Option Upstream)
    (hmk : ∀ m e, mk m = some e → e.power = key m)
    (left : List JsonVal) (out : List Upstream)
    (h : ((left.insertionSort (fun x y => key y ≤ key x)).take 3).mapM mk = some out) :
    out.length ≤ 3 ∧
    List.Pairwise (fun e1 e2 : Upstream => e2.power ≤ e1.power) out ∧
    (∀ e ∈ out, ∃ m ∈ left, mk m = some e) ∧
    (∀ n ∈ left, (∃ e ∈ out, mk n = some e) ∨ (∀ e ∈ out, key n ≤ e.power)) := by
  haveI instTot : IsTotal JsonVal (fun x y => key y ≤ key x) :=
    ⟨fun a b => le_total (key b) (key a)⟩
  haveI instTrans : IsTrans JsonVal (fun x y => key y ≤ key x) :=
    ⟨fun a b c hab hbc => le_trans hbc hab⟩
  have hf2 := mapM_option_forall2 h
  have hsorted : List.Pairwise (fun x y => key y ≤ key x)
      (left.insertionSort (fun x y => key y ≤ key x)) :=
    List.sorted_insertionSort _ left
  have htake : List.Pairwise (fun x y => key y ≤ key x)
      ((left.insertionSort (fun x y => key y ≤ key x)).take 3) :=
    List.Pairwise.sublist (List.take_sublist 3 _) hsorted
  refine ⟨?_, ?_, ?_, ?_⟩
  · have hlen := hf2.length_eq
    have := List.length_take_le 3 (left.insertionSort (fun x y => key y ≤ key x))
    omega
  · exact pairwise_of_forall2
      (fun a b a' b' ha hb hS => by rw [hmk a a' ha, hmk b b' hb]; exact hS)
      hf2 htake
  · intro e he
    obtain ⟨m, hm_take, hmk_m⟩ := forall2_mem_right hf2 he
    have hm_sorted : m ∈ left.insertionSort (fun x y => key y ≤ key x) :=
      (List.take_sublist 3 _).subset hm_take
    exact ⟨m, (List.mem_insertionSort _).mp hm_sorted, hmk_m⟩
  · intro n hn
    have hn_sorted : n ∈ left.insertionSort (fun x y => key y ≤ key x) :=
      (List.mem_insertionSort _).mpr hn
    rw [← List.take_append_drop 3 (left.insertionSort (fun x y => key y ≤ key x))]
      at hn_sorted
    rcases List.mem_append.mp hn_sorted with htk | hdp
    · left
      exact forall2_mem_left hf2 htk
    · right
      intro e he
      obtain ⟨m, hm_take, hmk_m⟩ := forall2_mem_right hf2 he
      have hp : List.Pairwise (fun x y => key y ≤ key x)
          ((left.insertionSort (fun x y => key y ≤ key x)).take 3 ++
           (left.insertionSort (fun x y => key y ≤ key x)).drop 3) := by
        rw [List.take_append_drop]
        exact hsorted
      have hcross := (List.pairwise_append.mp hp).2.2 m hm_take n hdp
      rw [hmk m e hmk_m]
      exact hcross

theorem mk_upstream_power (norm : JsonVal → List Char) (m : JsonVal) (e : Upstream)
    (hme : mk_upstream norm m = some e) : e.power = upstreamKeyD m := by
  unfold mk_upstream at hme
  cases hp : pyInt (pyOr (dictGet m "power".data (.i 0)) (.i 0)) with
  | none => rw [hp] at hme; exact absurd hme (by simp)
  | some p =>
    rw [hp] at hme
    cases hv4 : pyInt (pyOr (dictGet m "v4_peers".data (.i 0)) (.i 0)) with
    | none => rw [hv4] at hme; exact absurd hme (by simp)
    | some v4 =>
      rw [hv4] at hme
      cases hv6 : pyInt (pyOr (dictGet m "v6_peers".data (.i 0)) (.i 0)) with
      | none => rw [hv6] at hme; exact absurd hme (by simp)
      | some v6 =>
        rw [hv6] at hme
        simp only [Option.bind_eq_bind, Option.bind_some] at hme
        injection hme with hme
        subst hme
        unfold upstreamKeyD
        rw [hp]
        rfl

theorem integrity_mk_upstream_power (m : JsonVal) (e : Upstream)
    (hme : AsnIntegrityAudit.mk_upstream m = some e) :
    e.power = AsnIntegrityAudit.upstreamKeyD m := by
  unfold AsnIntegrityAudit.mk_upstream at hme
  cases hp : pyInt (dictGet m "power".data (.i 0)) with
  | none => rw [hp] at hme; exact absurd hme (by simp)
  | some p =>
    rw [hp] at hme
    cases hv4 : pyInt (dictGet m "v4_peers".data (.i 0)) with
    | none => rw [hv4] at hme; exact absurd hme (by simp)
    | some v4 =>
      rw [hv4] at hme
      cases hv6 : pyInt (dictGet m "v6_peers".data (.i 0)) with
      | none => rw [hv6] at hme; exact absurd hme (by simp)
      | some v6 =>
        rw [hv6] at hme
        simp only [Option.bind_eq_bind, Option.bind_some] at hme
        injection hme with hme
        subst hme
        unfold AsnIntegrityAudit.upstreamKeyD
        rw [hp]
        rfl

theorem filterLeftE_ok : ∀ {ns l : List JsonVal},
    AsnIntegrityAudit.filterLeftE ns = .ok l → l = ns.filter isLeftNeighbour := by
  intro ns
  induction ns with
  | nil =>
    intro l h
    unfold AsnIntegrityAudit.filterLeftE at h
    injection h with h
    subst h
    rfl
  | cons n rest ih =>
    intro l h
    unfold AsnIntegrityAudit.filterLeftE at h
    cases n with
    | obj kvs =>
      dsimp only at h
      cases hrest : AsnIntegrityAudit.filterLeftE rest with
      | error e => rw [hrest] at h; exact absurd h (by simp)
      | ok l2 =>
        rw [hrest] at h
        dsimp only at h
        by_cases hcond :
            pyLower (pyStr (dictGet (.obj kvs) "type".data (.s []))) = "left".data
        · rw [if_pos hcond] at h
          injection h with h
          subst h
          have : isLeftNeighbour (.obj kvs) = true := by
            unfold isLeftNeighbour isDict
            simp [hcond]
          rw [List.filter_cons_of_pos this]
          rw [ih hrest]
        · rw [if_neg hcond] at h
          injection h with h
          subst h
          have : isLeftNeighbour (.obj kvs) = false := by
            unfold isLeftNeighbour isDict
            simp [hcond]
          rw [List.filter_cons_of_neg (by simp [this])]
          exact ih hrest
    | null => exact absurd h (by simp)
    | b v => exact absurd h (by simp)
    | i n2 => exact absurd h (by simp)
    | s cs => exact absurd h (by simp)
    | arr xs => exact absurd h (by simp)

/-- C3: in both copies of the top-upstream selection (`get_top_upstreams` in
`sovereignty_audit.py`/`asn_path_finder.py`, and `get_upstreams` in
`asn_integrity_audit.py`), a successful run returns at most three records;
every record is derived from a neighbour whose type field equals `left`
case-insensitively; the records are in non-increasing order of `power`; and
no left-type neighbour that was dropped has a power strictly greater than
that of any returned record. -/
theorem c3_top_upstreams :
    (∀ (norm : JsonVal → List Char) (ns : List JsonVal) (out : List Upstream),
      upstreams_core norm (.arr ns) = .ok out →
      out.length ≤ 3 ∧
      (∀ e ∈ out, ∃ n ∈ ns, isLeftNeighbour n = true ∧ mk_upstream norm n = some e) ∧
      List.Pairwise (fun e1 e2 : Upstream => e2.power ≤ e1.power) out ∧
      (∀ n ∈ ns, isLeftNeighbour n = true →
        (∃ e ∈ out, mk_upstream norm n = some e) ∨
        (∀ e ∈ out, upstreamKeyD n ≤ e.power))) ∧
    (∀ (ns : List JsonVal) (out : List Upstream),
      AsnIntegrityAudit.get_upstreams ns = .ok out →
      out.length ≤ 3 ∧
      (∀ e ∈ out, ∃ n ∈ ns, isLeftNeighbour n = true ∧
        AsnIntegrityAudit.mk_upstream n = some e) ∧
      List.Pairwise (fun e1 e2 : Upstream => e2.power ≤ e1.power) out ∧
      (∀ n ∈ ns, isLeftNeighbour n = true →
        (∃ e ∈ out, AsnIntegrityAudit.mk_upstream n = some e) ∨
        (∀ e ∈ out, AsnIntegrityAudit.upstreamKeyD n ≤ e.power))) := by
  constructor
  · intro norm ns out h
    unfold upstreams_core at h
    dsimp only at h
    cases hkey : (ns.filter isLeftNeighbour).mapM
        (fun n => pyInt (pyOr (dictGet n "power".data (.i 0)) (.i 0))) with
    | none => rw [hkey] at h; exact absurd h (by simp)
    | some ks =>
      rw [hkey] at h
      dsimp only at h
      cases hmm : (((ns.filter isLeftNeighbour).insertionSort
          (fun x y => upstreamKeyD y ≤ upstreamKeyD x)).take 3).mapM
          ( mk_upstream norm) with
      | none => rw [hmm] at h; exact absurd h (by simp)
      | some out2 =>
        rw [hmm] at h
        injection h with h
        subst h
        obtain ⟨hlen, hpw, hmem, hmax⟩ :=
          topTake_props upstreamKeyD ( mk_upstream norm) (mk_upstream_power norm)
            (ns.filter isLeftNeighbour) out2 hmm
        refine ⟨hlen, ?_, hpw, ?_⟩
        · intro e he
          obtain ⟨m, hm, hmk_m⟩ := hmem e he
          rcases List.mem_filter.mp hm with ⟨hmns, hmleft⟩
          exact ⟨m, hmns, hmleft, hmk_m⟩
        · intro n hn hnleft
          exact hmax n (List.mem_filter.mpr ⟨hn, hnleft⟩)
  · intro ns out h
    unfold AsnIntegrityAudit.get_upstreams at h
    cases hfl : AsnIntegrityAudit.filterLeftE ns with
    | error e => rw [hfl] at h; exact absurd h (by simp)
    | ok left =>
      rw [hfl] at h
      dsimp only at h
      have hleft := filterLeftE_ok hfl
      subst hleft
      cases hkey : (ns.filter isLeftNeighbour).mapM
          (fun n => pyInt (dictGet n "power".data (.i 0))) with
      | none => rw [hkey] at h; exact absurd h (by simp)
      | some ks =>
        rw [hkey] at h
        dsimp only at h
        cases hmm : (((ns.filter isLeftNeighbour).insertionSort
            (fun x y => AsnIntegrityAudit.upstreamKeyD y ≤
              AsnIntegrityAudit.upstreamKeyD x)).take 3).mapM
            AsnIntegrityAudit.mk_upstream with
        | none => rw [hmm] at h; exact absurd h (by simp)
        | some out2 =>
          rw [hmm] at h
          injection h with h
          subst h
          obtain ⟨hlen, hpw, hmem, hmax⟩ :=
            topTake_props AsnIntegrityAudit.upstreamKeyD AsnIntegrityAudit.mk_upstream
              integrity_mk_upstream_power (ns.filter isLeftNeighbour) out2 hmm
          refine ⟨hlen, ?_, hpw, ?_⟩
          · intro e he
            obtain ⟨m, hm, hmk_m⟩ := hmem e he
            rcases List.mem_filter.mp hm with ⟨hmns, hmleft⟩
            exact ⟨m, hmns, hmleft, hmk_m⟩
          · intro n hn hnleft
            exact hmax n (List.mem_filter.mpr ⟨hn, hnleft⟩)

/-- Witness for C3: a concrete neighbour list with one left and one right
neighbour for each selector variant. -/
theorem c3_witness :
    upstreams_core SovereigntyAudit.normalise_asn (.arr c3Ns) =
      .ok [⟨"AS7".data, 5, 1, 2⟩] ∧
    (∀ e ∈ ([⟨"AS7".data, 5, 1, 2⟩] : List Upstream), ∃ n ∈ c3Ns,
      isLeftNeighbour n = true ∧
      mk_upstream SovereigntyAudit.normalise_asn n = some e) ∧
    AsnIntegrityAudit.get_upstreams c3Ns2 = .ok [⟨"AS9".data, 3, 0, 0⟩] ∧
    (∀ e ∈ ([⟨"AS9".data, 3, 0, 0⟩] : List Upstream), ∃ n ∈ c3Ns2,
      isLeftNeighbour n = true ∧ AsnIntegrityAudit.mk_upstream n = some e) :=
  ⟨by decide,
   ((c3_top_upstreams.1 SovereigntyAudit.normalise_asn c3Ns
      [⟨"AS7".data, 5, 1, 2⟩] (by decide)).2.1),
   by decide,
   ((c3_top_upstreams.2 c3Ns2 [⟨"AS9".data, 3, 0, 0⟩] (by decide)).2.1)⟩

/-! ## C2 and C1: risk flags and sovereignty score -/

theorem bind_ok_inv {α β : Type} {x : Except Unit α} {f : α → Except Unit β} {r : β}
    (h : (x >>= f) = .ok r) : ∃ a, x = .ok a ∧ f a = .ok r := by
  cases x with
  | ok a => exact ⟨a, rfl, h⟩
  | error e => exact absurd h (by simp [Bind.bind, Except.bind])

/-- Every successful `analyse_ip` run relates `is_high_risk` to its own
`country` field by membership in the static set. -/
theorem analyse_ip_high_risk {env : IpLookup.IpEnv} {ip : List Char}
    {r : IpLookup.IpResult} (h : IpLookup.analyse_ip env ip = .ok r) :
    r.is_high_risk = true ↔ r.country ∈ HIGH_RISK_COUNTRIES := by
  unfold IpLookup.analyse_ip at h
  obtain ⟨a1, h1, h⟩ := bind_ok_inv h
  obtain ⟨a2, h2, h⟩ := bind_ok_inv h
  obtain ⟨a3, h3, h⟩ := bind_ok_inv h
  obtain ⟨a4, h4, h⟩ := bind_ok_inv h
  obtain ⟨a5, h5, h⟩ := bind_ok_inv h
  obtain ⟨a6, h6, h⟩ := bind_ok_inv h
  obtain ⟨a7, h7, h⟩ := bind_ok_inv h
  obtain ⟨a8, h8, h⟩ := bind_ok_inv h
  obtain ⟨a9, h9, h⟩ := bind_ok_inv h
  obtain ⟨a10, h10, h⟩ := bind_ok_inv h
  obtain ⟨a11, h11, h⟩ := bind_ok_inv h
  injection h with h
  subst h
  exact decide_eq_true_iff

/-- Every successful `analyse_asn` run relates `is_high_risk` to its own
`registration_country` field by membership in the static set. -/
theorem analyse_asn_high_risk {env : AsnIntegrityAudit.AsnEnv} {s : List Char}
    {r : AsnIntegrityAudit.AsnResult} (h : AsnIntegrityAudit.analyse_asn env s = .ok r) :
    r.is_high_risk = true ↔ r.registration_country ∈ HIGH_RISK_COUNTRIES := by
  unfold AsnIntegrityAudit.analyse_asn at h
  dsimp only at h
  split at h <;>
    (repeat obtain ⟨_x, -, h⟩ := bind_ok_inv h) <;>
    split at h <;>
    (repeat obtain ⟨_y, -, h⟩ := bind_ok_inv h) <;>
    (injection h with h; subst h; exact decide_eq_true_iff)

/-- Inversion for a successful `audit`: the assembled result's risk filters,
flags and score are determined by its own `path_entities` field. -/
theorem audit_ok_fields {env : SovereigntyAudit.SovEnv} {resource : List Char}
    {from_url : Bool} {cnt : Nat} {r : SovereigntyAudit.AuditResult} {n : Nat}
    (h : SovereigntyAudit.audit env resource from_url cnt = (.ok r, n)) :
    r.extra_eu_entries = r.path_entities.filter SovereigntyAudit.is_extra_eu ∧
    r.high_risk_entries = r.path_entities.filter SovereigntyAudit.is_high_risk_entity ∧
    r.sovereignty_score =
      (if (r.path_entities.filter SovereigntyAudit.is_extra_eu).isEmpty
       then "Sovereign (EU-Only)".data else "Fragmented (Extra-EU Path)".data) ∧
    r.extra_eu_detour =
      decide (0 < (r.path_entities.filter SovereigntyAudit.is_extra_eu).length) ∧
    r.path_contains_high_risk_jurisdiction =
      decide (0 < (r.path_entities.filter SovereigntyAudit.is_high_risk_entity).length) := by
  unfold SovereigntyAudit.audit at h
  cases h1 : SovereigntyAudit.audit_resolve env resource from_url cnt with
  | mk x1 n1 =>
    rw [h1] at h
    cases x1 with
    | error e => simp at h
    | ok v =>
      obtain ⟨final_url, target_ip, asn0, holder0, pfx⟩ := v
      dsimp only at h
      cases h2 : SovereigntyAudit.audit_fix_asn env pfx asn0 holder0 n1 with
      | mk x2 n2 =>
        rw [h2] at h
        cases x2 with
        | error e => simp at h
        | ok v2 =>
          obtain ⟨target_asn, origin_holder⟩ := v2
          dsimp only at h
          cases h3 : (if pfx ≠ "Unknown".data
              then SovereigntyAudit.get_path_from_prefix env pfx n2
              else (.ok [], n2)) with
          | mk x3 n3 =>
            rw [h3] at h
            cases x3 with
            | error e => simp at h
            | ok path =>
              dsimp only at h
              cases h4 : SovereigntyAudit.collect_entities env path n3 with
              | mk entities n4 =>
                rw [h4] at h
                dsimp only at h
                cases h5 : SovereigntyAudit.get_top_upstreams env target_asn n4 with
                | mk x5 n5 =>
                  rw [h5] at h
                  cases x5 with
                  | error e => simp at h
                  | ok upstreams =>
                    dsimp only at h
                    cases h6 : SovereigntyAudit.rpki_state env pfx target_asn n5 with
                    | mk x6 n6 =>
                      rw [h6] at h
                      cases x6 with
                      | error e => simp at h
                      | ok rpki =>
                        dsimp only at h
                        have hr := congrArg Prod.fst h
                        dsimp only at hr
                        injection hr with hr
                        subst hr
                        exact ⟨rfl, rfl, rfl, rfl, rfl⟩

/-- Membership translation for successful audits: the `extra_eu` filter is
empty exactly when every path entity is EU/EEA or UNKNOWN. -/
theorem extra_eu_empty_iff (entities : List Entity) :
    (entities.filter SovereigntyAudit.is_extra_eu).isEmpty = true ↔
      ∀ e ∈ entities, e.country ∈ SovereigntyAudit.EU_EEA_COUNTRIES ∨
        e.country = "UNKNOWN".data := by
  rw [List.isEmpty_iff, List.filter_eq_nil_iff]
  constructor
  · intro hall e he
    have hne := hall e he
    simp only [SovereigntyAudit.is_extra_eu, decide_eq_true_eq] at hne
    rcases not_and_or.mp hne with hc | hc
    · exact Or.inl (not_not.mp hc)
    · exact Or.inr (not_not.mp hc)
  · intro hall e he
    have := hall e he
    simp only [SovereigntyAudit.is_extra_eu, decide_eq_true_eq]
    rintro ⟨hnotEU, hne⟩
    rcases this with hc | hc
    · exact hnotEU hc
    · exact hne hc

theorem high_risk_pos_iff (entities : List Entity) :
    0 < (entities.filter SovereigntyAudit.is_high_risk_entity).length ↔
      ∃ e ∈ entities, e.country ∈ HIGH_RISK_COUNTRIES := by
  rw [List.length_pos]
  constructor
  · intro hne
    obtain ⟨e, he⟩ := List.exists_mem_of_ne_nil _ hne
    rcases List.mem_filter.mp he with ⟨hmem, hpred⟩
    simp only [SovereigntyAudit.is_high_risk_entity, decide_eq_true_eq] at hpred
    exact ⟨e, hmem, hpred⟩
  · rintro ⟨e, hmem, hc⟩
    refine List.ne_nil_of_mem (List.mem_filter.mpr ⟨hmem, ?_⟩)
    simp only [SovereigntyAudit.is_high_risk_entity, decide_eq_true_eq]
    exact hc

theorem extra_eu_pos_iff (entities : List Entity) :
    0 < (entities.filter SovereigntyAudit.is_extra_eu).length ↔
      ∃ e ∈ entities, e.country ∉ SovereigntyAudit.EU_EEA_COUNTRIES ∧
        e.country ≠ "UNKNOWN".data := by
  rw [List.length_pos]
  constructor
  · intro hne
    obtain ⟨e, he⟩ := List.exists_mem_of_ne_nil _ hne
    rcases List.mem_filter.mp he with ⟨hmem, hpred⟩
    simp only [SovereigntyAudit.is_extra_eu, decide_eq_true_eq] at hpred
    exact ⟨e, hmem, hpred⟩
  · rintro ⟨e, hmem, hc⟩
    refine List.ne_nil_of_mem (List.mem_filter.mpr ⟨hmem, ?_⟩)
    simp only [SovereigntyAudit.is_extra_eu, decide_eq_true_eq]
    exact hc

/-- C2: in every analysis result, the high-risk jurisdiction flag
(`is_high_risk` in `ip_lookup` and `asn_integrity_audit`,
`path_contains_high_risk_jurisdiction` in `sovereignty_audit`) is true if
and only if the derived country code (of the result, resp. of some path
entity) is a member of the static set `HIGH_RISK_COUNTRIES` =
\x7bRU, CN, IR, KP, SY\x7d. -/
theorem c2_high_risk_flags :
    (∀ (env : IpLookup.IpEnv) (ip : List Char) (r : IpLookup.IpResult),
      IpLookup.analyse_ip env ip = .ok r →
      (r.is_high_risk = true ↔ r.country ∈ HIGH_RISK_COUNTRIES)) ∧
    (∀ (env : AsnIntegrityAudit.AsnEnv) (s : List Char) (r : AsnIntegrityAudit.AsnResult),
      AsnIntegrityAudit.analyse_asn env s = .ok r →
      (r.is_high_risk = true ↔ r.registration_country ∈ HIGH_RISK_COUNTRIES)) ∧
    (∀ (env : SovereigntyAudit.SovEnv) (resource : List Char) (from_url : Bool)
      (cnt : Nat) (r : SovereigntyAudit.AuditResult) (n : Nat),
      SovereigntyAudit.audit env resource from_url cnt = (.ok r, n) →
      (r.path_contains_high_risk_jurisdiction = true ↔
        ∃ e ∈ r.path_entities, e.country ∈ HIGH_RISK_COUNTRIES)) := by
  refine ⟨?_, ?_, ?_⟩
  · intro env ip r h
    exact analyse_ip_high_risk h
  · intro env s r h
    exact analyse_asn_high_risk h
  · intro env resource from_url cnt r n h
    obtain ⟨-, -, -, -, hflag⟩ := audit_ok_fields h
    rw [hflag, decide_eq_true_iff]
    exact high_risk_pos_iff r.path_entities

/-- C1: for every audit result, the sovereignty score is
`Sovereign (EU-Only)` iff no path entity has a country code both outside the
EU/EEA allowlist and different from `UNKNOWN`; otherwise it is
`Fragmented (Extra-EU Path)`; and `extra_eu_detour` is true exactly in the
latter case. -/
theorem c1_sovereignty_score (env : SovereigntyAudit.SovEnv) (resource : List Char)
    (from_url : Bool) (cnt : Nat) (r : SovereigntyAudit.AuditResult) (n : Nat)
    (h : SovereigntyAudit.audit env resource from_url cnt = (.ok r, n)) :
    (r.sovereignty_score = "Sovereign (EU-Only)".data ↔
      ∀ e ∈ r.path_entities, e.country ∈ SovereigntyAudit.EU_EEA_COUNTRIES ∨
        e.country = "UNKNOWN".data) ∧
    (r.sovereignty_score = "Sovereign (EU-Only)".data ∨
      r.sovereignty_score = "Fragmented (Extra-EU Path)".data) ∧
    (r.extra_eu_detour = true ↔
      ∃ e ∈ r.path_entities, e.country ∉ SovereigntyAudit.EU_EEA_COUNTRIES ∧
        e.country ≠ "UNKNOWN".data) ∧
    (r.extra_eu_detour = true ↔
      r.sovereignty_score = "Fragmented (Extra-EU Path)".data) := by
  obtain ⟨-, -, hscore, hdet, -⟩ := audit_ok_fields h
  have hSF : ("Sovereign (EU-Only)".data : List Char) ≠ "Fragmented (Extra-EU Path)".data :=
    by decide
  refine ⟨?_, ?_, ?_, ?_⟩
  · rw [hscore]
    by_cases hL : (r.path_entities.filter SovereigntyAudit.is_extra_eu).isEmpty = true
    · rw [if_pos hL]
      exact iff_of_true rfl ((extra_eu_empty_iff r.path_entities).mp hL)
    · rw [if_neg hL]
      exact iff_of_false (fun heq => hSF heq.symm)
        (fun hall => hL ((extra_eu_empty_iff r.path_entities).mpr hall))
  · rw [hscore]
    by_cases hL : (r.path_entities.filter SovereigntyAudit.is_extra_eu).isEmpty = true
    · rw [if_pos hL]; exact Or.inl rfl
    · rw [if_neg hL]; exact Or.inr rfl
  · rw [hdet, decide_eq_true_iff]
    exact extra_eu_pos_iff r.path_entities
  · rw [hdet, hscore]
    by_cases hL : (r.path_entities.filter SovereigntyAudit.is_extra_eu).isEmpty = true
    · rw [if_pos hL]
      refine iff_of_false ?_ (fun heq => hSF heq)
      rw [decide_eq_true_eq]
      rw [List.isEmpty_iff_length_eq_zero] at hL
      omega
    · rw [if_neg hL]
      refine iff_of_true ?_ rfl
      rw [decide_eq_true_eq]
      rw [List.isEmpty_iff_length_eq_zero] at hL
      omega

/-- Witness for C2: the three flag equivalences at concrete oracle runs. -/
theorem c2_witness :
    (c2rI.is_high_risk = true ↔ c2rI.country ∈ HIGH_RISK_COUNTRIES) ∧
    (c2rA.is_high_risk = true ↔ c2rA.registration_country ∈ HIGH_RISK_COUNTRIES) ∧
    (c1rS.path_contains_high_risk_jurisdiction = true ↔
      ∃ e ∈ c1rS.path_entities, e.country ∈ HIGH_RISK_COUNTRIES) :=
  ⟨c2_high_risk_flags.1 c2IpEnv "1.2.3.4".data c2rI rfl,
   c2_high_risk_flags.2.1 c2AsnEnv "as5".data c2rA rfl,
   c2_high_risk_flags.2.2 c1SovEnv "1".data false 0 c1rS c1n rfl⟩

/-- Witness for C1: the score/detour equivalences at a concrete oracle run. -/
theorem c1_witness :
    (c1rS.sovereignty_score = "Sovereign (EU-Only)".data ↔
      ∀ e ∈ c1rS.path_entities, e.country ∈ SovereigntyAudit.EU_EEA_COUNTRIES ∨
        e.country = "UNKNOWN".data) ∧
    (c1rS.sovereignty_score = "Sovereign (EU-Only)".data ∨
      c1rS.sovereignty_score = "Fragmented (Extra-EU Path)".data) ∧
    (c1rS.extra_eu_detour = true ↔
      ∃ e ∈ c1rS.path_entities, e.country ∉ SovereigntyAudit.EU_EEA_COUNTRIES ∧
        e.country ≠ "UNKNOWN".data) ∧
    (c1rS.extra_eu_detour = true ↔
      c1rS.sovereignty_score = "Fragmented (Extra-EU Path)".data) :=
  c1_sovereignty_score c1SovEnv "1".data false 0 c1rS c1n rfl

/-! ## C8: the memo dictionaries change no observable output -/

theorem assocFind_mem {cache : List (List Char × Entity)} {a : List Char} {e : Entity}
    (h : assocFind cache a = some e) : (a, e) ∈ cache := by
  induction cache with
  | nil => simp [assocFind] at h
  | cons p rest ih =>
    obtain ⟨k, v⟩ := p
    simp only [assocFind] at h
    by_cases hk : k = a
    · rw [if_pos hk] at h
      injection h with h
      subst hk
      subst h
      exact List.mem_cons_self _ _
    · rw [if_neg hk] at h
      exact List.mem_cons_of_mem _ (ih h)

theorem filterMap_eq_map_of {α β : Type} (f : α → Option β) (g : α → β) :
    ∀ l : List α, (∀ a ∈ l, f a = some (g a)) → l.filterMap f = l.map g := by
  intro l
  induction l with
  | nil => intro _; rfl
  | cons a l ih =>
    intro h
    rw [List.filterMap_cons, h a (List.mem_cons_self a l), List.map_cons,
      ih (fun b hb => h b (List.mem_cons_of_mem a hb))]

/-- Under a deterministic oracle the value fetched by `get_json` does not
depend on the call index. -/
theorem get_json_val_det {env : SovereigntyAudit.SovEnv}
    (hdet : ∀ i j url p, env.fetch i url p = env.fetch j url p)
    (url : List Char) (p : List (List Char × List Char)) (cnt cnt' : Nat) :
    (SovereigntyAudit.get_json env url p cnt).1 =
      (SovereigntyAudit.get_json env url p cnt').1 := by
  unfold SovereigntyAudit.get_json
  rw [hdet cnt cnt' url p]
  cases env.fetch cnt' url p <;> rfl

theorem get_asn_entity_val_det {env : SovereigntyAudit.SovEnv}
    (hdet : ∀ i j url p, env.fetch i url p = env.fetch j url p)
    (a : List Char) (cnt cnt' : Nat) :
    (SovereigntyAudit.get_asn_entity env a cnt).1 =
      (SovereigntyAudit.get_asn_entity env a cnt').1 := by
  have h := get_json_val_det hdet SovereigntyAudit.AS_OVERVIEW_URL
    [("resource".data, a)] cnt cnt'
  unfold SovereigntyAudit.get_asn_entity
  rcases hq : SovereigntyAudit.get_json env SovereigntyAudit.AS_OVERVIEW_URL
      [("resource".data, a)] cnt with ⟨v, n⟩
  rcases hq' : SovereigntyAudit.get_json env SovereigntyAudit.AS_OVERVIEW_URL
      [("resource".data, a)] cnt' with ⟨v', n'⟩
  rw [hq, hq'] at h
  dsimp only at h
  subst h
  cases v with
  | error e => rfl
  | ok data =>
    dsimp only
    cases dictGetE data "holder".data JsonVal.null <;> rfl

theorem try_entity_val_det {env : SovereigntyAudit.SovEnv}
    (hdet : ∀ i j url p, env.fetch i url p = env.fetch j url p)
    (a : List Char) (cnt cnt' : Nat) :
    (SovereigntyAudit.try_entity env a cnt).1 =
      (SovereigntyAudit.try_entity env a cnt').1 := by
  have h := get_asn_entity_val_det hdet a cnt cnt'
  unfold SovereigntyAudit.try_entity
  rcases hq : SovereigntyAudit.get_asn_entity env a cnt with ⟨v, n⟩
  rcases hq' : SovereigntyAudit.get_asn_entity env a cnt' with ⟨v', n'⟩
  rw [hq, hq'] at h
  dsimp only at h
  subst h
  rfl

/-- Under a deterministic oracle the value fetched by `request_json` does not
depend on the call index. -/
theorem request_json_val_det {env : AsnPathFinder.PfEnv}
    (hdet : ∀ i j url r, env.fetch i url r = env.fetch j url r)
    (url resource : List Char) (cnt cnt' : Nat) :
    (AsnPathFinder.request_json env url resource cnt).1 =
      (AsnPathFinder.request_json env url resource cnt').1 := by
  unfold AsnPathFinder.request_json
  rw [hdet cnt cnt' url resource, hdet (cnt + 1) (cnt' + 1) url resource]
  cases env.fetch cnt' url resource with
  | error e => rfl
  | ok sb =>
    obtain ⟨status, body⟩ := sb
    dsimp only
    by_cases h429 : status = 429
    · simp only [if_pos h429]
      cases env.fetch (cnt' + 1) url resource with
      | error e => rfl
      | ok sb2 =>
        obtain ⟨s2, b2⟩ := sb2
        dsimp only
        by_cases hs2 : 400 ≤ s2 ∧ s2 < 600
        · simp only [if_pos hs2]
        · simp only [if_neg hs2]
    · simp only [if_neg h429]
      by_cases hs : 400 ≤ status ∧ status < 600
      · simp only [if_pos hs]
      · simp only [if_neg hs]

theorem fetch_entity_val_det {env : AsnPathFinder.PfEnv}
    (hdet : ∀ i j url r, env.fetch i url r = env.fetch j url r)
    (a : List Char) (cnt cnt' : Nat) :
    (AsnPathFinder.fetch_entity env a cnt).1 =
      (AsnPathFinder.fetch_entity env a cnt').1 := by
  have h := request_json_val_det hdet AsnPathFinder.AS_OVERVIEW_URL a cnt cnt'
  unfold AsnPathFinder.fetch_entity
  rcases hq : AsnPathFinder.request_json env AsnPathFinder.AS_OVERVIEW_URL a cnt
    with ⟨v, n⟩
  rcases hq' : AsnPathFinder.request_json env AsnPathFinder.AS_OVERVIEW_URL a cnt'
    with ⟨v', n'⟩
  rw [hq, hq'] at h
  dsimp only at h
  subst h
  rfl

/-- Loop invariant for `collect_entities_go`: if every cached entity is the
naive one, the output list is the naive map and the final cache again only
holds naive entities. -/
theorem collect_go_spec {env : SovereigntyAudit.SovEnv}
    (hdet : ∀ i j url p, env.fetch i url p = env.fetch j url p) :
    ∀ (path : List (List Char)) (cache : List (List Char × Entity)) (cnt : Nat),
      (∀ p ∈ cache, p.2 = naive_sov_entity env p.1 0) →
      (SovereigntyAudit.collect_entities_go env path cache cnt).1 =
        path.map (fun a => naive_sov_entity env a 0) ∧
      (∀ p ∈ (SovereigntyAudit.collect_entities_go env path cache cnt).2.1,
        p.2 = naive_sov_entity env p.1 0) := by
  intro path
  induction path with
  | nil =>
    intro cache cnt hc
    exact ⟨rfl, hc⟩
  | cons a rest ih =>
    intro cache cnt hc
    simp only [SovereigntyAudit.collect_entities_go]
    cases hf : assocFind cache a with
    | some e =>
      rcases hgo : SovereigntyAudit.collect_entities_go env rest cache cnt
        with ⟨out, c2, n2⟩
      have H := ih cache cnt hc
      rw [hgo] at H
      dsimp only at H
      have he : e = naive_sov_entity env a 0 := hc (a, e) (assocFind_mem hf)
      refine ⟨?_, H.2⟩
      dsimp only
      simp only [List.map_cons]
      rw [← H.1, he]
    | none =>
      rcases ht : SovereigntyAudit.try_entity env a cnt with ⟨ent, n1⟩
      dsimp only
      have hent : ent = naive_sov_entity env a 0 := by
        unfold naive_sov_entity
        rw [try_entity_val_det hdet a 0 cnt, ht]
      have hc2 : ∀ p ∈ (a, ent) :: cache, p.2 = naive_sov_entity env p.1 0 := by
        intro p hp
        rcases List.mem_cons.mp hp with hp | hp
        · subst hp; exact hent
        · exact hc p hp
      rcases hgo : SovereigntyAudit.collect_entities_go env rest ((a, ent) :: cache) n1
        with ⟨out, c2, n2⟩
      have H := ih ((a, ent) :: cache) n1 hc2
      rw [hgo] at H
      dsimp only at H
      refine ⟨?_, H.2⟩
      dsimp only
      simp only [List.map_cons]
      rw [← H.1, hent]

/-- Loop invariant for `enrich_go`: naive values throughout the `seen` map,
preservation of existing entries, and completeness over the path. -/
theorem enrich_go_spec {env : AsnPathFinder.PfEnv}
    (hdet : ∀ i j url r, env.fetch i url r = env.fetch j url r) :
    ∀ (path : List (List Char)) (seen : List (List Char × Entity)) (cnt : Nat),
      (∀ p ∈ seen, p.2 = naive_pf_entity env p.1 0) →
      (∀ p ∈ (AsnPathFinder.enrich_go env path seen cnt).1,
        p.2 = naive_pf_entity env p.1 0) ∧
      (∀ a e, assocFind seen a = some e →
        assocFind (AsnPathFinder.enrich_go env path seen cnt).1 a = some e) ∧
      (∀ a ∈ path, ∃ e, assocFind (AsnPathFinder.enrich_go env path seen cnt).1 a = some e) := by
  intro path
  induction path with
  | nil =>
    intro seen cnt hc
    exact ⟨hc, fun a e h => h, fun a ha => absurd ha (List.not_mem_nil a)⟩
  | cons a rest ih =>
    intro seen cnt hc
    simp only [AsnPathFinder.enrich_go]
    cases hf : assocFind seen a with
    | some e =>
      have H := ih seen cnt hc
      refine ⟨H.1, H.2.1, ?_⟩
      intro b hb
      rcases List.mem_cons.mp hb with hb | hb
      · subst hb
        exact ⟨e, H.2.1 b e hf⟩
      · exact H.2.2 b hb
    | none =>
      rcases ht : AsnPathFinder.fetch_entity env a cnt with ⟨ent, n1⟩
      dsimp only
      have hent : ent = naive_pf_entity env a 0 := by
        unfold naive_pf_entity
        rw [fetch_entity_val_det hdet a 0 cnt, ht]
      have hc2 : ∀ p ∈ (a, ent) :: seen, p.2 = naive_pf_entity env p.1 0 := by
        intro p hp
        rcases List.mem_cons.mp hp with hp | hp
        · subst hp; exact hent
        · exact hc p hp
      have H := ih ((a, ent) :: seen) n1 hc2
      refine ⟨H.1, ?_, ?_⟩
      · intro b e hb
        have hne : a ≠ b := by
          intro heq
          rw [heq] at hf
          rw [hf] at hb
          cases hb
        refine H.2.1 b e ?_
        simp only [assocFind, if_neg hne]
        exact hb
      · intro b hb
        rcases List.mem_cons.mp hb with hb | hb
        · subst hb
          refine ⟨ent, H.2.1 b ent ?_⟩
          simp [assocFind]
        · exact H.2.2 b hb

theorem collect_entities_naive {env : SovereigntyAudit.SovEnv}
    (hdet : ∀ i j url p, env.fetch i url p = env.fetch j url p)
    (path : List (List Char)) (cnt : Nat) :
    (SovereigntyAudit.collect_entities env path cnt).1 =
      naive_collect_entities env path := by
  unfold SovereigntyAudit.collect_entities naive_collect_entities
  rcases hgo : SovereigntyAudit.collect_entities_go env path [] cnt with ⟨out, c2, n⟩
  have H := collect_go_spec hdet path [] cnt (by intro p hp; cases hp)
  rw [hgo] at H
  dsimp only at H
  exact H.1

theorem enrich_naive {env : AsnPathFinder.PfEnv}
    (hdet : ∀ i j url r, env.fetch i url r = env.fetch j url r)
    (path : List (List Char)) (cnt : Nat) :
    (AsnPathFinder.enrich_path_jurisdictions env path cnt).1 =
      naive_enrich_path env path := by
  unfold AsnPathFinder.enrich_path_jurisdictions naive_enrich_path
  rcases hgo : AsnPathFinder.enrich_go env path [] cnt with ⟨seenF, n⟩
  have H := enrich_go_spec hdet path [] cnt (by intro p hp; cases hp)
  rw [hgo] at H
  dsimp only at H
  dsimp only
  apply filterMap_eq_map_of
  intro a ha
  obtain ⟨e, he⟩ := H.2.2 a ha
  have hval : e = naive_pf_entity env a 0 := H.1 (a, e) (assocFind_mem he)
  rw [he, hval]

/-- C8: under a deterministic fetch oracle the memoised enrichment loops are
observationally equivalent to naive per-element fetching: `collect_entities`
and `enrich_path_jurisdictions` return a list of the same length and order as
the input path whose element i is the entity a direct fetch for path[i]
produces (with the Unknown fallback on exception); neither the memo
dictionary nor the call counter changes any observable output. -/
theorem c8_memoised_enrichment :
    (∀ (env : SovereigntyAudit.SovEnv),
      (∀ i j url p, env.fetch i url p = env.fetch j url p) →
      ∀ (path : List (List Char)) (cnt : Nat),
        (SovereigntyAudit.collect_entities env path cnt).1 =
          naive_collect_entities env path) ∧
    (∀ (env : AsnPathFinder.PfEnv),
      (∀ i j url r, env.fetch i url r = env.fetch j url r) →
      ∀ (path : List (List Char)) (cnt : Nat),
        (AsnPathFinder.enrich_path_jurisdictions env path cnt).1 =
          naive_enrich_path env path) :=
  ⟨fun _ hdet path cnt => collect_entities_naive hdet path cnt,
   fun _ hdet path cnt => enrich_naive hdet path cnt⟩

/-- Witness for C8 at constant oracles and a path with a duplicate ASN. -/
theorem c8_witness :
    (SovereigntyAudit.collect_entities c1SovEnv
        ["AS1".data, "AS1".data, "AS2".data] 0).1 =
      naive_collect_entities c1SovEnv ["AS1".data, "AS1".data, "AS2".data] ∧
    (AsnPathFinder.enrich_path_jurisdictions c8PfEnv ["AS1".data, "AS1".data] 0).1 =
      naive_enrich_path c8PfEnv ["AS1".data, "AS1".data] :=
  ⟨c8_memoised_enrichment.1 c1SovEnv (fun _ _ _ _ => rfl)
      ["AS1".data, "AS1".data, "AS2".data] 0,
   c8_memoised_enrichment.2 c8PfEnv (fun _ _ _ _ => rfl)
      ["AS1".data, "AS1".data] 0⟩

/-! ## C4: request counting -/

theorem assocFind_none_not_mem {cache : List (List Char × Entity)} {a : List Char}
    (h : assocFind cache a = none) : a ∉ cache.map Prod.fst := by
  induction cache with
  | nil => simp
  | cons p rest ih =>
    obtain ⟨k, v⟩ := p
    simp only [assocFind] at h
    by_cases hk : k = a
    · rw [if_pos hk] at h
      cases h
    · rw [if_neg hk] at h
      intro hmem
      simp only [List.map_cons, List.mem_cons] at hmem
      rcases hmem with h1 | h1
      · exact hk h1.symm
      · exact ih h h1

theorem get_json_count (env : SovereigntyAudit.SovEnv) (url : List Char)
    (p : List (List Char × List Char)) (cnt : Nat) :
    (SovereigntyAudit.get_json env url p cnt).2 = cnt + 1 := by
  unfold SovereigntyAudit.get_json
  cases env.fetch cnt url p <;> rfl

theorem find_prefix_ip_count (env : SovereigntyAudit.SovEnv) (ip : List Char) (cnt : Nat) :
    (SovereigntyAudit.find_prefix_and_origin_from_ip env ip cnt).2 = cnt + 1 := by
  have h := get_json_count env SovereigntyAudit.PREFIX_OVERVIEW_URL
    [("resource".data, ip)] cnt
  unfold SovereigntyAudit.find_prefix_and_origin_from_ip
  rcases hq : SovereigntyAudit.get_json env SovereigntyAudit.PREFIX_OVERVIEW_URL
      [("resource".data, ip)] cnt with ⟨v, n⟩
  rw [hq] at h
  dsimp only at h
  subst h
  cases v <;> rfl

theorem find_prefix_asn_count (env : SovereigntyAudit.SovEnv) (asn : List Char) (cnt : Nat) :
    (SovereigntyAudit.find_prefix_from_asn env asn cnt).2 = cnt + 1 := by
  have h := get_json_count env SovereigntyAudit.ANNOUNCED_PREFIXES_URL
    [("resource".data, asn)] cnt
  unfold SovereigntyAudit.find_prefix_from_asn
  rcases hq : SovereigntyAudit.get_json env SovereigntyAudit.ANNOUNCED_PREFIXES_URL
      [("resource".data, asn)] cnt with ⟨v, n⟩
  rw [hq] at h
  dsimp only at h
  subst h
  cases v <;> rfl

theorem get_path_count (env : SovereigntyAudit.SovEnv) (pfx : List Char) (cnt : Nat) :
    (SovereigntyAudit.get_path_from_prefix env pfx cnt).2 = cnt + 1 := by
  have h := get_json_count env SovereigntyAudit.BGP_STATE_URL
    [("resource".data, pfx)] cnt
  unfold SovereigntyAudit.get_path_from_prefix
  rcases hq : SovereigntyAudit.get_json env SovereigntyAudit.BGP_STATE_URL
      [("resource".data, pfx)] cnt with ⟨v, n⟩
  rw [hq] at h
  dsimp only at h
  subst h
  cases v <;> rfl

theorem get_asn_entity_count (env : SovereigntyAudit.SovEnv) (a : List Char) (cnt : Nat) :
    (SovereigntyAudit.get_asn_entity env a cnt).2 = cnt + 1 := by
  have h := get_json_count env SovereigntyAudit.AS_OVERVIEW_URL
    [("resource".data, a)] cnt
  unfold SovereigntyAudit.get_asn_entity
  rcases hq : SovereigntyAudit.get_json env SovereigntyAudit.AS_OVERVIEW_URL
      [("resource".data, a)] cnt with ⟨v, n⟩
  rw [hq] at h
  dsimp only at h
  subst h
  cases v with
  | error e => rfl
  | ok data =>
    dsimp only
    cases dictGetE data "holder".data JsonVal.null <;> rfl

theorem try_entity_count (env : SovereigntyAudit.SovEnv) (a : List Char) (cnt : Nat) :
    (SovereigntyAudit.try_entity env a cnt).2 = cnt + 1 := by
  have h := get_asn_entity_count env a cnt
  unfold SovereigntyAudit.try_entity
  rcases hq : SovereigntyAudit.get_asn_entity env a cnt with ⟨v, n⟩
  rw [hq] at h
  dsimp only at h
  subst h
  rfl

theorem sov_top_upstreams_count (env : SovereigntyAudit.SovEnv)
    (origin_asn : List Char) (cnt : Nat) :
    cnt ≤ (SovereigntyAudit.get_top_upstreams env origin_asn cnt).2 ∧
      (SovereigntyAudit.get_top_upstreams env origin_asn cnt).2 ≤ cnt + 1 := by
  unfold SovereigntyAudit.get_top_upstreams
  by_cases hA : origin_asn = "Unknown".data
  · rw [if_pos hA]
    exact ⟨Nat.le_refl cnt, Nat.le_succ cnt⟩
  · rw [if_neg hA]
    have h := get_json_count env SovereigntyAudit.ASN_NEIGHBOURS_URL
      [("resource".data, origin_asn)] cnt
    rcases hq : SovereigntyAudit.get_json env SovereigntyAudit.ASN_NEIGHBOURS_URL
        [("resource".data, origin_asn)] cnt with ⟨v, n⟩
    rw [hq] at h
    dsimp only at h
    subst h
    cases v with
    | error e => exact ⟨Nat.le_succ cnt, Nat.le_refl _⟩
    | ok data =>
      dsimp only
      cases dictGetE data "neighbours".data (JsonVal.arr []) <;>
        exact ⟨Nat.le_succ cnt, Nat.le_refl _⟩

theorem rpki_state_count (env : SovereigntyAudit.SovEnv)
    (pfx origin_asn : List Char) (cnt : Nat) :
    cnt ≤ (SovereigntyAudit.rpki_state env pfx origin_asn cnt).2 ∧
      (SovereigntyAudit.rpki_state env pfx origin_asn cnt).2 ≤ cnt + 1 := by
  unfold SovereigntyAudit.rpki_state
  by_cases hA : pfx = "Unknown".data ∨ origin_asn = "Unknown".data
  · rw [if_pos hA]
    exact ⟨Nat.le_refl cnt, Nat.le_succ cnt⟩
  · rw [if_neg hA]
    have h := get_json_count env SovereigntyAudit.RPKI_VALIDATION_URL
      [("prefix".data, pfx), ("resource".data, origin_asn)] cnt
    rcases hq : SovereigntyAudit.get_json env SovereigntyAudit.RPKI_VALIDATION_URL
        [("prefix".data, pfx), ("resource".data, origin_asn)] cnt with ⟨v, n⟩
    rw [hq] at h
    dsimp only at h
    subst h
    cases v <;> exact ⟨Nat.le_succ cnt, Nat.le_refl _⟩

theorem audit_resolve_count {env : SovereigntyAudit.SovEnv} {resource : List Char}
    {from_url : Bool} {cnt : Nat}
    {v : List Char × List Char × List Char × List Char × List Char} {n : Nat}
    (h : SovereigntyAudit.audit_resolve env resource from_url cnt = (.ok v, n)) :
    n = cnt + 1 := by
  unfold SovereigntyAudit.audit_resolve at h
  split at h
  · cases hrf : env.resolve_final resource with
    | error e =>
      rw [hrf] at h
      simp at h
    | ok ft =>
      obtain ⟨final_url, target_ip⟩ := ft
      rw [hrf] at h
      dsimp only at h
      have hc := find_prefix_ip_count env target_ip cnt
      rcases hq : SovereigntyAudit.find_prefix_and_origin_from_ip env target_ip cnt
        with ⟨w, m⟩
      rw [hq] at h hc
      dsimp only at hc
      cases w with
      | error e => simp at h
      | ok trip =>
        obtain ⟨pfx, asn, holder⟩ := trip
        dsimp only at h
        injection h with h1 h2
        omega
  · split at h
    · have hc := find_prefix_ip_count env resource cnt
      rcases hq : SovereigntyAudit.find_prefix_and_origin_from_ip env resource cnt
        with ⟨w, m⟩
      rw [hq] at h hc
      dsimp only at hc
      cases w with
      | error e => simp at h
      | ok trip =>
        obtain ⟨pfx, asn, holder⟩ := trip
        dsimp only at h
        injection h with h1 h2
        omega
    · dsimp only at h
      have hc := find_prefix_asn_count env
        (SovereigntyAudit.normalise_asn (.s resource)) cnt
      rcases hq : SovereigntyAudit.find_prefix_from_asn env
          (SovereigntyAudit.normalise_asn (.s resource)) cnt with ⟨w, m⟩
      rw [hq] at h hc
      dsimp only at hc
      cases w with
      | error e => simp at h
      | ok pfx =>
        dsimp only at h
        injection h with h1 h2
        omega

theorem audit_fix_asn_count {env : SovereigntyAudit.SovEnv}
    {pfx asn holder : List Char} {cnt : Nat} {v : List Char × List Char} {n : Nat}
    (h : SovereigntyAudit.audit_fix_asn env pfx asn holder cnt = (.ok v, n)) :
    cnt ≤ n ∧ n ≤ cnt + 1 := by
  unfold SovereigntyAudit.audit_fix_asn at h
  split at h
  · split at h
    · have hc := find_prefix_ip_count env (pfx.takeWhile (fun c => c != '/')) cnt
      rcases hq : SovereigntyAudit.find_prefix_and_origin_from_ip env
          (pfx.takeWhile (fun c => c != '/')) cnt with ⟨w, m⟩
      rw [hq] at h hc
      dsimp only at hc
      cases w with
      | error e => simp at h
      | ok trip =>
        obtain ⟨p2, asn2, holder2⟩ := trip
        dsimp only at h
        injection h with h1 h2
        omega
    · injection h with h1 h2
      omega
  · injection h with h1 h2
    omega

theorem collect_go_count (env : SovereigntyAudit.SovEnv) :
    ∀ (path : List (List Char)) (cache : List (List Char × Entity)) (cnt : Nat),
      (SovereigntyAudit.collect_entities_go env path cache cnt).2.2 =
        cnt + distinct_new path (cache.map Prod.fst) := by
  intro path
  induction path with
  | nil => intro cache cnt; rfl
  | cons a rest ih =>
    intro cache cnt
    simp only [SovereigntyAudit.collect_entities_go, distinct_new]
    cases hf : assocFind cache a with
    | some e =>
      have hmem : a ∈ cache.map Prod.fst :=
        List.mem_map.mpr ⟨(a, e), assocFind_mem hf, rfl⟩
      rw [if_pos hmem]
      rcases hgo : SovereigntyAudit.collect_entities_go env rest cache cnt
        with ⟨out, c2, n2⟩
      have H := ih cache cnt
      rw [hgo] at H
      dsimp only at H ⊢
      exact H
    | none =>
      have hmem : a ∉ cache.map Prod.fst := assocFind_none_not_mem hf
      rw [if_neg hmem]
      rcases ht : SovereigntyAudit.try_entity env a cnt with ⟨ent, n1⟩
      dsimp only
      have hn1 : n1 = cnt + 1 := by
        have := try_entity_count env a cnt
        rw [ht] at this
        exact this
      rcases hgo : SovereigntyAudit.collect_entities_go env rest ((a, ent) :: cache) n1
        with ⟨out, c2, n2⟩
      have H := ih ((a, ent) :: cache) n1
      rw [hgo] at H
      simp only [List.map_cons] at H
      dsimp only at H ⊢
      omega

theorem collect_entities_count (env : SovereigntyAudit.SovEnv)
    (path : List (List Char)) (cnt : Nat) :
    (SovereigntyAudit.collect_entities env path cnt).2 = cnt + distinct_new path [] := by
  unfold SovereigntyAudit.collect_entities
  rcases hgo : SovereigntyAudit.collect_entities_go env path [] cnt with ⟨out, c2, n⟩
  have H := collect_go_count env path [] cnt
  rw [hgo] at H
  simp only [List.map_nil] at H
  exact H

/-- Request count of a successful `audit` run: one resolution request, plus
at most one request each for the ASN fix-up, the path, the upstreams and the
RPKI check, plus one per distinct path ASN. -/
theorem audit_count {env : SovereigntyAudit.SovEnv} {resource : List Char}
    {from_url : Bool} {r : SovereigntyAudit.AuditResult} {n : Nat}
    (h : SovereigntyAudit.audit env resource from_url 0 = (.ok r, n)) :
    1 ≤ n ∧ n ≤ 5 + distinct_new r.as_path [] := by
  unfold SovereigntyAudit.audit at h
  cases h1 : SovereigntyAudit.audit_resolve env resource from_url 0 with
  | mk x1 n1 =>
    rw [h1] at h
    cases x1 with
    | error e => simp at h
    | ok v =>
      obtain ⟨final_url, target_ip, asn0, holder0, pfx⟩ := v
      dsimp only at h
      have hc1 : n1 = 0 + 1 := audit_resolve_count h1
      cases h2 : SovereigntyAudit.audit_fix_asn env pfx asn0 holder0 n1 with
      | mk x2 n2 =>
        rw [h2] at h
        cases x2 with
        | error e => simp at h
        | ok v2 =>
          obtain ⟨target_asn, origin_holder⟩ := v2
          dsimp only at h
          have hc2 : n1 ≤ n2 ∧ n2 ≤ n1 + 1 := audit_fix_asn_count h2
          cases h3 : (if pfx ≠ "Unknown".data
              then SovereigntyAudit.get_path_from_prefix env pfx n2
              else (.ok [], n2)) with
          | mk x3 n3 =>
            rw [h3] at h
            cases x3 with
            | error e => simp at h
            | ok path =>
              dsimp only at h
              have hc3 : n2 ≤ n3 ∧ n3 ≤ n2 + 1 := by
                by_cases hp : pfx ≠ "Unknown".data
                · rw [if_pos hp] at h3
                  have := get_path_count env pfx n2
                  rw [h3] at this
                  dsimp only at this
                  omega
                · rw [if_neg hp] at h3
                  injection h3 with ha hb
                  omega
              cases h4 : SovereigntyAudit.collect_entities env path n3 with
              | mk entities n4 =>
                rw [h4] at h
                dsimp only at h
                have hc4 : n4 = n3 + distinct_new path [] := by
                  have := collect_entities_count env path n3
                  rw [h4] at this
                  exact this
                cases h5 : SovereigntyAudit.get_top_upstreams env target_asn n4 with
                | mk x5 n5 =>
                  rw [h5] at h
                  cases x5 with
                  | error e => simp at h
                  | ok upstreams =>
                    dsimp only at h
                    have hc5 : n4 ≤ n5 ∧ n5 ≤ n4 + 1 := by
                      have := sov_top_upstreams_count env target_asn n4
                      rw [h5] at this
                      exact this
                    cases h6 : SovereigntyAudit.rpki_state env pfx target_asn n5 with
                    | mk x6 n6 =>
                      rw [h6] at h
                      cases x6 with
                      | error e => simp at h
                      | ok rpki =>
                        dsimp only at h
                        have hc6 : n5 ≤ n6 ∧ n6 ≤ n5 + 1 := by
                          have := rpki_state_count env pfx target_asn n5
                          rw [h6] at this
                          exact this
                        have hn := congrArg Prod.snd h
                        dsimp only at hn
                        have hr := congrArg Prod.fst h
                        dsimp only at hr
                        injection hr with hr
                        subst hr
                        dsimp only
                        omega

theorem request_json_count (env : AsnPathFinder.PfEnv)
    (url resource : List Char) (cnt : Nat) :
    cnt + 1 ≤ (AsnPathFinder.request_json env url resource cnt).2 ∧
      (AsnPathFinder.request_json env url resource cnt).2 ≤ cnt + 2 := by
  unfold AsnPathFinder.request_json
  cases env.fetch cnt url resource with
  | error e => dsimp only; omega
  | ok sb =>
    obtain ⟨status, body⟩ := sb
    dsimp only
    by_cases h429 : status = 429
    · simp only [if_pos h429]
      cases env.fetch (cnt + 1) url resource with
      | error e => dsimp only; omega
      | ok sb2 =>
        obtain ⟨s2, b2⟩ := sb2
        dsimp only
        by_cases hs2 : 400 ≤ s2 ∧ s2 < 600
        · simp only [if_pos hs2]; omega
        · simp only [if_neg hs2]; omega
    · simp only [if_neg h429]
      by_cases hs : 400 ≤ status ∧ status < 600
      · simp only [if_pos hs]; omega
      · simp only [if_neg hs]; omega

theorem get_prefix_and_origin_count (env : AsnPathFinder.PfEnv)
    (ip : List Char) (cnt : Nat) :
    cnt + 1 ≤ (AsnPathFinder.get_prefix_and_origin env ip cnt).2 ∧
      (AsnPathFinder.get_prefix_and_origin env ip cnt).2 ≤ cnt + 2 := by
  have h := request_json_count env AsnPathFinder.PREFIX_OVERVIEW_URL ip cnt
  unfold AsnPathFinder.get_prefix_and_origin
  rcases hq : AsnPathFinder.request_json env AsnPathFinder.PREFIX_OVERVIEW_URL ip cnt
    with ⟨v, m⟩
  rw [hq] at h
  dsimp only at h
  cases v <;> (dsimp only; omega)

theorem get_live_as_path_count (env : AsnPathFinder.PfEnv)
    (pfx : List Char) (cnt : Nat) :
    cnt ≤ (AsnPathFinder.get_live_as_path env pfx cnt).2 ∧
      (AsnPathFinder.get_live_as_path env pfx cnt).2 ≤ cnt + 2 := by
  unfold AsnPathFinder.get_live_as_path
  by_cases hp : pfx = "Unknown".data
  · rw [if_pos hp]
    dsimp only
    omega
  · rw [if_neg hp]
    have h := request_json_count env AsnPathFinder.BGP_STATE_URL pfx cnt
    rcases hq : AsnPathFinder.request_json env AsnPathFinder.BGP_STATE_URL pfx cnt
      with ⟨v, m⟩
    rw [hq] at h
    dsimp only at h
    cases v <;> (dsimp only; omega)

theorem pf_top_upstreams_count (env : AsnPathFinder.PfEnv)
    (origin_asn : List Char) (cnt : Nat) :
    cnt ≤ (AsnPathFinder.get_top_upstreams env origin_asn cnt).2 ∧
      (AsnPathFinder.get_top_upstreams env origin_asn cnt).2 ≤ cnt + 2 := by
  unfold AsnPathFinder.get_top_upstreams
  by_cases hA : origin_asn = "Unknown".data
  · rw [if_pos hA]
    dsimp only
    omega
  · rw [if_neg hA]
    have h := request_json_count env AsnPathFinder.ASN_NEIGHBOURS_URL origin_asn cnt
    rcases hq : AsnPathFinder.request_json env AsnPathFinder.ASN_NEIGHBOURS_URL
        origin_asn cnt with ⟨v, m⟩
    rw [hq] at h
    dsimp only at h
    cases v with
    | error e => dsimp only; omega
    | ok data =>
      dsimp only
      cases dictGetE data "neighbours".data (JsonVal.arr []) <;> (dsimp only; omega)

theorem fetch_entity_count (env : AsnPathFinder.PfEnv) (a : List Char) (cnt : Nat) :
    cnt + 1 ≤ (AsnPathFinder.fetch_entity env a cnt).2 ∧
      (AsnPathFinder.fetch_entity env a cnt).2 ≤ cnt + 2 := by
  have h := request_json_count env AsnPathFinder.AS_OVERVIEW_URL a cnt
  unfold AsnPathFinder.fetch_entity
  rcases hq : AsnPathFinder.request_json env AsnPathFinder.AS_OVERVIEW_URL a cnt
    with ⟨v, m⟩
  rw [hq] at h
  dsimp only at h ⊢
  omega

theorem enrich_go_count (env : AsnPathFinder.PfEnv) :
    ∀ (path : List (List Char)) (seen : List (List Char × Entity)) (cnt : Nat),
      cnt + distinct_new path (seen.map Prod.fst) ≤
        (AsnPathFinder.enrich_go env path seen cnt).2 ∧
      (AsnPathFinder.enrich_go env path seen cnt).2 ≤
        cnt + 2 * distinct_new path (seen.map Prod.fst) := by
  intro path
  induction path with
  | nil =>
    intro seen cnt
    dsimp only [AsnPathFinder.enrich_go, distinct_new]
    omega
  | cons a rest ih =>
    intro seen cnt
    simp only [AsnPathFinder.enrich_go, distinct_new]
    cases hf : assocFind seen a with
    | some e =>
      have hmem : a ∈ seen.map Prod.fst :=
        List.mem_map.mpr ⟨(a, e), assocFind_mem hf, rfl⟩
      rw [if_pos hmem]
      exact ih seen cnt
    | none =>
      have hmem : a ∉ seen.map Prod.fst := assocFind_none_not_mem hf
      rw [if_neg hmem]
      rcases ht : AsnPathFinder.fetch_entity env a cnt with ⟨ent, n1⟩
      dsimp only
      have hn1 : cnt + 1 ≤ n1 ∧ n1 ≤ cnt + 2 := by
        have := fetch_entity_count env a cnt
        rw [ht] at this
        exact this
      have H := ih ((a, ent) :: seen) n1
      simp only [List.map_cons] at H
      omega

theorem enrich_path_count (env : AsnPathFinder.PfEnv)
    (path : List (List Char)) (cnt : Nat) :
    cnt + distinct_new path [] ≤ (AsnPathFinder.enrich_path_jurisdictions env path cnt).2 ∧
      (AsnPathFinder.enrich_path_jurisdictions env path cnt).2 ≤
        cnt + 2 * distinct_new path [] := by
  unfold AsnPathFinder.enrich_path_jurisdictions
  rcases hgo : AsnPathFinder.enrich_go env path [] cnt with ⟨seenF, n⟩
  have H := enrich_go_count env path [] cnt
  rw [hgo] at H
  simp only [List.map_nil] at H
  dsimp only at H ⊢
  omega

/-- Request count of a successful `analyse` run: up to two requests for each
of the three fixed lookups (one retry each), plus up to two per distinct path
ASN. -/
theorem analyse_count {env : AsnPathFinder.PfEnv} {ip : List Char}
    {r : AsnPathFinder.AnalyseResult} {n : Nat}
    (h : AsnPathFinder.analyse env ip 0 = (.ok r, n)) :
    1 ≤ n ∧ n ≤ 6 + 2 * distinct_new r.as_path [] := by
  unfold AsnPathFinder.analyse at h
  cases h1 : AsnPathFinder.get_prefix_and_origin env ip 0 with
  | mk x1 n1 =>
    rw [h1] at h
    cases x1 with
    | error e => simp at h
    | ok v =>
      obtain ⟨pfx, origin_asn, origin_holder⟩ := v
      dsimp only at h
      have hc1 : 0 + 1 ≤ n1 ∧ n1 ≤ 0 + 2 := by
        have := get_prefix_and_origin_count env ip 0
        rw [h1] at this
        exact this
      cases h2 : AsnPathFinder.get_live_as_path env pfx n1 with
      | mk x2 n2 =>
        rw [h2] at h
        cases x2 with
        | error e => simp at h
        | ok path_asns =>
          dsimp only at h
          have hc2 : n1 ≤ n2 ∧ n2 ≤ n1 + 2 := by
            have := get_live_as_path_count env pfx n1
            rw [h2] at this
            exact this
          cases h3 : AsnPathFinder.get_top_upstreams env origin_asn n2 with
          | mk x3 n3 =>
            rw [h3] at h
            cases x3 with
            | error e => simp at h
            | ok top =>
              dsimp only at h
              have hc3 : n2 ≤ n3 ∧ n3 ≤ n2 + 2 := by
                have := pf_top_upstreams_count env origin_asn n2
                rw [h3] at this
                exact this
              cases h4 : AsnPathFinder.enrich_path_jurisdictions env path_asns n3 with
              | mk details n4 =>
                rw [h4] at h
                dsimp only at h
                have hc4 : n3 + distinct_new path_asns [] ≤ n4 ∧
                    n4 ≤ n3 + 2 * distinct_new path_asns [] := by
                  have := enrich_path_count env path_asns n3
                  rw [h4] at this
                  exact this
                have hn := congrArg Prod.snd h
                dsimp only at hn
                have hr := congrArg Prod.fst h
                dsimp only at hr
                injection hr with hr
                subst hr
                dsimp only
                omega

/-- C4 counterexample: on an oracle whose AS path holds four distinct ASNs,
`analyse` completes successfully after seven GET requests, exceeding the
claimed bound of five. -/
theorem c4_counterexample :
    (AsnPathFinder.analyse c4Env "9.9.9.9".data 0).1.isOk = true ∧
    (AsnPathFinder.analyse c4Env "9.9.9.9".data 0).2 = 7 ∧ ¬(7 ≤ 5) :=
  ⟨rfl, rfl, by decide⟩

/-- C4 (amended): a successful run issues at least one GET request, and at
most a fixed number plus a per-distinct-path-ASN surcharge: `audit` issues at
most `5 + D` requests and `analyse` at most `6 + 2 * D`, where `D` is the
number of distinct ASNs in the returned AS path; no bound independent of the
response contents exists. -/
theorem c4_request_bounds :
    (∀ (env : SovereigntyAudit.SovEnv) (resource : List Char) (from_url : Bool)
      (r : SovereigntyAudit.AuditResult) (n : Nat),
      SovereigntyAudit.audit env resource from_url 0 = (.ok r, n) →
      1 ≤ n ∧ n ≤ 5 + distinct_new r.as_path []) ∧
    (∀ (env : AsnPathFinder.PfEnv) (ip : List Char)
      (r : AsnPathFinder.AnalyseResult) (n : Nat),
      AsnPathFinder.analyse env ip 0 = (.ok r, n) →
      1 ≤ n ∧ n ≤ 6 + 2 * distinct_new r.as_path []) :=
  ⟨fun _ _ _ _ _ h => audit_count h, fun _ _ _ _ h => analyse_count h⟩

/-- Witness for the amended C4 bounds at two concrete oracle runs. -/
theorem c4_witness :
    (1 ≤ c1n ∧ c1n ≤ 5 + distinct_new c1rS.as_path []) ∧
    (1 ≤ c4n ∧ c4n ≤ 6 + 2 * distinct_new c4r.as_path []) :=
  ⟨c4_request_bounds.1 c1SovEnv "1".data false c1rS c1n rfl,
   c4_request_bounds.2 c4Env "9.9.9.9".data c4r c4n rfl⟩

/-! ## String lemmas used for the normalisation helpers -/

set_option maxHeartbeats 1000000 in
theorem pyUpperChar_idem (c : Char) : pyUpperChar (pyUpperChar c) = pyUpperChar c := by
  unfold pyUpperChar
  split <;>
    first
    | rfl
    | (rename_i x heq
       split at heq <;> first | (exact absurd heq (by decide)) | simp_all)

theorem pyIsSpace_pyUpperChar (c : Char) : pyIsSpace (pyUpperChar c) = pyIsSpace c := by
  unfold pyUpperChar
  split <;> rfl

theorem pyUpper_pyUpper (s : List Char) : pyUpper (pyUpper s) = pyUpper s := by
  induction s with
  | nil => rfl
  | cons c t ih =>
    simp only [pyUpper, List.map_cons] at ih ⊢
    rw [pyUpperChar_idem, ih]

theorem dropWhile_map_comm (f : Char → Char) (p : Char → Bool)
    (hf : ∀ c, p (f c) = p c) (l : List Char) :
    (l.map f).dropWhile p = (l.dropWhile p).map f := by
  induction l with
  | nil => rfl
  | cons c t ih =>
    by_cases hpc : p c = true
    · simp [List.dropWhile_cons, hf, hpc, ih]
    · simp [List.dropWhile_cons, hf, hpc]

theorem dropWhile_dropWhile (p : Char → Bool) (l : List Char) :
    (l.dropWhile p).dropWhile p = l.dropWhile p := by
  induction l with
  | nil => rfl
  | cons c t ih =>
    by_cases hpc : p c = true
    · simp [List.dropWhile_cons, hpc, ih]
    · simp [List.dropWhile_cons, hpc]

theorem pyLstrip_pyLstrip (s : List Char) : pyLstrip (pyLstrip s) = pyLstrip s :=
  dropWhile_dropWhile pyIsSpace s

theorem pyRstrip_pyRstrip (s : List Char) : pyRstrip (pyRstrip s) = pyRstrip s := by
  unfold pyRstrip
  rw [List.reverse_reverse, dropWhile_dropWhile]

theorem pyLstrip_pyUpper (s : List Char) : pyLstrip (pyUpper s) = pyUpper (pyLstrip s) :=
  dropWhile_map_comm pyUpperChar pyIsSpace pyIsSpace_pyUpperChar s

theorem pyRstrip_pyUpper (s : List Char) : pyRstrip (pyUpper s) = pyUpper (pyRstrip s) := by
  unfold pyRstrip pyUpper
  rw [← List.map_reverse, dropWhile_map_comm _ _ pyIsSpace_pyUpperChar, ← List.map_reverse]

theorem pyStrip_pyUpper (s : List Char) : pyStrip (pyUpper s) = pyUpper (pyStrip s) := by
  unfold pyStrip
  rw [pyLstrip_pyUpper, pyRstrip_pyUpper]

theorem lstripped_head_not_space {c : Char} {t : List Char}
    (h : pyLstrip (c :: t) = c :: t) : pyIsSpace c = false := by
  cases hpc : pyIsSpace c with
  | false => rfl
  | true =>
    exfalso
    unfold pyLstrip at h
    rw [List.dropWhile_cons_of_pos hpc] at h
    have hle := (List.dropWhile_sublist (l := t) pyIsSpace).length_le
    rw [h] at hle
    simp at hle

theorem pyRstrip_isPrefix (l : List Char) : pyRstrip l <+: l := by
  have h := List.reverse_prefix.mpr (List.dropWhile_suffix (l := l.reverse) pyIsSpace)
  rwa [List.reverse_reverse] at h

theorem pyLstrip_pyRstrip {s : List Char} (h : pyLstrip s = s) :
    pyLstrip (pyRstrip s) = pyRstrip s := by
  cases s with
  | nil => rfl
  | cons c t =>
    have hc := lstripped_head_not_space h
    obtain ⟨u, hu⟩ := pyRstrip_isPrefix (c :: t)
    cases hr : pyRstrip (c :: t) with
    | nil => rfl
    | cons c0 t0 =>
      rw [hr] at hu
      have hu' : c0 :: (t0 ++ u) = c :: t := by simpa using hu
      injection hu' with h1 _
      subst h1
      unfold pyLstrip
      rw [List.dropWhile_cons_of_neg (by simp [hc])]

theorem pyStrip_pyStrip (s : List Char) : pyStrip (pyStrip s) = pyStrip s := by
  unfold pyStrip
  rw [pyLstrip_pyRstrip (pyLstrip_pyLstrip s), pyRstrip_pyRstrip]

theorem pyStrip_parts {s : List Char} (h : pyStrip s = s) :
    pyLstrip s = s ∧ pyRstrip s = s := by
  have hsub : List.Sublist (pyLstrip s) s := List.dropWhile_sublist (l := s) pyIsSpace
  have h1 : (pyLstrip s).length ≤ s.length := hsub.length_le
  have h2 : (pyRstrip (pyLstrip s)).length ≤ (pyLstrip s).length := by
    unfold pyRstrip
    calc ((pyLstrip s).reverse.dropWhile pyIsSpace).reverse.length
        = ((pyLstrip s).reverse.dropWhile pyIsSpace).length := List.length_reverse _
      _ ≤ (pyLstrip s).reverse.length :=
          (List.dropWhile_sublist (l := (pyLstrip s).reverse) pyIsSpace).length_le
      _ = (pyLstrip s).length := List.length_reverse _
  have hlen : (pyRstrip (pyLstrip s)).length = s.length := by
    rw [show pyRstrip (pyLstrip s) = s from h]
  have hL : pyLstrip s = s := hsub.eq_of_length (by omega)
  refine ⟨hL, ?_⟩
  have hs : pyRstrip (pyLstrip s) = s := h
  rwa [hL] at hs

theorem pyStrip_AS {t : List Char} (h : pyStrip t = t) :
    pyStrip ('A' :: 'S' :: t) = 'A' :: 'S' :: t := by
  obtain ⟨hL, hR⟩ := pyStrip_parts h
  have hrev : t.reverse.dropWhile pyIsSpace = t.reverse := by
    have hcong := congrArg List.reverse hR
    unfold pyRstrip at hcong
    rwa [List.reverse_reverse] at hcong
  unfold pyStrip pyLstrip
  rw [List.dropWhile_cons_of_neg (by decide)]
  unfold pyRstrip
  rw [show ('A' :: 'S' :: t).reverse = t.reverse ++ ['S', 'A'] by simp]
  rw [List.dropWhile_append, hrev]
  cases t with
  | nil => rfl
  | cons y ys => simp

theorem pyUpper_AS (t : List Char) : pyUpper ('A' :: 'S' :: t) = 'A' :: 'S' :: pyUpper t := rfl

theorem AS_isPrefixOf (t : List Char) : "AS".data.isPrefixOf ('A' :: 'S' :: t) = true := by
  rw [show "AS".data = ['A', 'S'] from by decide]
  simp [List.isPrefixOf]

theorem upper_normalise_idem (s : List Char) :
    AsnIntegrityAudit.normalise_asn (AsnIntegrityAudit.normalise_asn s) =
      AsnIntegrityAudit.normalise_asn s := by
  unfold AsnIntegrityAudit.normalise_asn
  have hstrip : pyStrip (pyUpper (pyStrip s)) = pyUpper (pyStrip s) := by
    rw [pyStrip_pyUpper, pyStrip_pyStrip]
  by_cases h : "AS".data.isPrefixOf (pyUpper (pyStrip s)) = true
  · rw [if_pos h, hstrip, pyUpper_pyUpper, if_pos h]
  · rw [if_neg h, pyStrip_AS hstrip, pyUpper_AS, pyUpper_pyUpper,
      if_pos (AS_isPrefixOf (pyUpper (pyStrip s)))]

theorem bgp_normalise_idem (s : List Char) :
    BgpHijackCheck.normalise_asn (BgpHijackCheck.normalise_asn s) =
      BgpHijackCheck.normalise_asn s :=
  upper_normalise_idem s

theorem sov_normalise_idem (s : List Char) :
    SovereigntyAudit.normalise_asn (.s (SovereigntyAudit.normalise_asn (.s s))) =
      SovereigntyAudit.normalise_asn (.s s) :=
  upper_normalise_idem s

theorem pf_normalise_idem (s : List Char) :
    AsnPathFinder.normalise_asn (.s (AsnPathFinder.normalise_asn (.s s))) =
      AsnPathFinder.normalise_asn (.s s) := by
  unfold AsnPathFinder.normalise_asn
  simp only [pyStr]
  by_cases h : "AS".data.isPrefixOf (pyUpper s) = true
  · rw [if_pos h, if_pos h]
  · rw [if_neg h, if_pos (by rw [pyUpper_AS]; exact AS_isPrefixOf (pyUpper s))]

/-- C9: both variants of `normalise_asn` are idempotent: the upper-casing
variant shared by `sovereignty_audit.py`, `asn_integrity_audit.py` and
`bgp_hijack_check.py`, and the non-uppercasing variant of
`asn_path_finder.py` that checks the `AS` tag case-insensitively. -/
theorem c9_normalise_asn_idempotent (s : List Char) :
    AsnIntegrityAudit.normalise_asn (AsnIntegrityAudit.normalise_asn s) =
      AsnIntegrityAudit.normalise_asn s ∧
    BgpHijackCheck.normalise_asn (BgpHijackCheck.normalise_asn s) =
      BgpHijackCheck.normalise_asn s ∧
    SovereigntyAudit.normalise_asn (.s (SovereigntyAudit.normalise_asn (.s s))) =
      SovereigntyAudit.normalise_asn (.s s) ∧
    AsnPathFinder.normalise_asn (.s (AsnPathFinder.normalise_asn (.s s))) =
      AsnPathFinder.normalise_asn (.s s) :=
  ⟨upper_normalise_idem s, bgp_normalise_idem s, sov_normalise_idem s, pf_normalise_idem s⟩

/-! ## Characterisation of the country-tail regex -/

theorem space_not_upperAlpha {c : Char} (h : pyIsSpace c = true) : isUpperAlpha c = false := by
  unfold pyIsSpace at h
  rcases Bool.or_eq_true_iff.mp h with h' | h6
  rcases Bool.or_eq_true_iff.mp h' with h' | h5
  rcases Bool.or_eq_true_iff.mp h' with h' | h4
  rcases Bool.or_eq_true_iff.mp h' with h' | h3
  rcases Bool.or_eq_true_iff.mp h' with h1 | h2
  all_goals first
  | (rw [of_decide_eq_true h1]; decide)
  | (rw [of_decide_eq_true h2]; decide)
  | (rw [of_decide_eq_true h3]; decide)
  | (rw [of_decide_eq_true h4]; decide)
  | (rw [of_decide_eq_true h5]; decide)
  | (rw [of_decide_eq_true h6]; decide)

theorem upperAlpha_not_space {c : Char} (h : isUpperAlpha c = true) : pyIsSpace c = false := by
  cases hsp : pyIsSpace c with
  | false => rfl
  | true => rw [space_not_upperAlpha hsp] at h; cases h

theorem comma_not_space : pyIsSpace ',' = false := by decide

theorem comma_not_upperAlpha : isUpperAlpha ',' = false := by decide

theorem all_takeWhile (p : Char → Bool) (l : List Char) : (l.takeWhile p).all p = true := by
  induction l with
  | nil => rfl
  | cons c t ih =>
    by_cases hc : p c = true
    · simp [List.takeWhile_cons, hc, ih]
    · simp [List.takeWhile_cons, hc]

theorem dropWhile_eq_nil_of_all {p : Char → Bool} {l : List Char} (h : l.all p = true) :
    l.dropWhile p = [] := by
  induction l with
  | nil => rfl
  | cons c t ih =>
    simp only [List.all_cons, Bool.and_eq_true] at h
    simp [List.dropWhile_cons, h.1, ih h.2]

theorem countryTailMatch_sound {l cc : List Char} (h : countryTailMatch l = some cc) :
    ∃ (ws1 ws2 : List Char) (a b : Char), ws1.all pyIsSpace = true ∧ ws2.all pyIsSpace = true ∧
      isUpperAlpha a = true ∧ isUpperAlpha b = true ∧
      l = ',' :: (ws1 ++ a :: b :: ws2) ∧ cc = [a, b] := by
  cases l with
  | nil => exact absurd h (by simp [countryTailMatch])
  | cons c rest =>
    simp only [countryTailMatch] at h
    by_cases hc : c = ','
    · rw [if_pos hc] at h
      subst hc
      split at h
      case _ a b r2 heq =>
        split at h
        case isTrue hcond =>
          injection h with hcc
          simp only [Bool.and_eq_true] at hcond
          refine ⟨rest.takeWhile pyIsSpace, r2, a, b, all_takeWhile _ _, hcond.2, hcond.1.1,
            hcond.1.2, ?_, hcc.symm⟩
          have hsplit := List.takeWhile_append_dropWhile pyIsSpace (l := rest)
          rw [heq] at hsplit
          rw [hsplit]
        case isFalse hcond => exact absurd h (by simp)
      case _ heq => exact absurd h (by simp)
    · rw [if_neg hc] at h
      exact absurd h (by simp)

theorem countryTailMatch_complete {ws1 ws2 : List Char} {a b : Char}
    (h1 : ws1.all pyIsSpace = true) (h2 : ws2.all pyIsSpace = true)
    (ha : isUpperAlpha a = true) (hb : isUpperAlpha b = true) :
    countryTailMatch (',' :: (ws1 ++ a :: b :: ws2)) = some [a, b] := by
  have hdw : (ws1 ++ a :: b :: ws2).dropWhile pyIsSpace = a :: b :: ws2 := by
    rw [List.dropWhile_append, dropWhile_eq_nil_of_all h1]
    simp only [List.isEmpty_nil, if_true]
    rw [List.dropWhile_cons_of_neg (by rw [upperAlpha_not_space ha]; simp)]
  simp only [countryTailMatch, if_pos rfl, hdw]
  simp [ha, hb, h2]

theorem matchform_no_comma {ws1 ws2 : List Char} {a b : Char}
    (h1 : ws1.all pyIsSpace = true) (h2 : ws2.all pyIsSpace = true)
    (ha : isUpperAlpha a = true) (hb : isUpperAlpha b = true) :
    ¬ (',' ∈ ws1 ++ a :: b :: ws2) := by
  intro hmem
  rcases List.mem_append.mp hmem with hin | hin
  · have := List.all_eq_true.mp h1 _ hin
    rw [comma_not_space] at this
    cases this
  · rcases hin with _ | ⟨_, hin⟩
    · rw [comma_not_upperAlpha] at ha; cases ha
    · rcases hin with _ | ⟨_, hin⟩
      · rw [comma_not_upperAlpha] at hb; cases hb
      · have := List.all_eq_true.mp h2 _ hin
        rw [comma_not_space] at this
        cases this

theorem searchCountryTail_sound : ∀ {l cc : List Char}, searchCountryTail l = some cc →
    ∃ (pre ws1 ws2 : List Char) (a b : Char), ws1.all pyIsSpace = true ∧ ws2.all pyIsSpace = true ∧
      isUpperAlpha a = true ∧ isUpperAlpha b = true ∧
      l = pre ++ ',' :: (ws1 ++ a :: b :: ws2) ∧ cc = [a, b] := by
  intro l
  induction l with
  | nil => intro cc h; exact absurd h (by simp [searchCountryTail])
  | cons c rest ih =>
    intro cc h
    simp only [searchCountryTail] at h
    cases hm : countryTailMatch (c :: rest) with
    | some cc' =>
      rw [hm] at h
      injection h with h
      subst h
      obtain ⟨ws1, ws2, a, b, hw1, hw2, ha, hb, heq, hcc⟩ := countryTailMatch_sound hm
      exact ⟨[], ws1, ws2, a, b, hw1, hw2, ha, hb, by simpa using heq, hcc⟩
    | none =>
      rw [hm] at h
      obtain ⟨pre, ws1, ws2, a, b, hw1, hw2, ha, hb, heq, hcc⟩ := ih h
      exact ⟨c :: pre, ws1, ws2, a, b, hw1, hw2, ha, hb, by rw [heq]; rfl, hcc⟩

theorem searchCountryTail_complete : ∀ (pre : List Char) {l ws1 ws2 : List Char} {a b : Char},
    ws1.all pyIsSpace = true → ws2.all pyIsSpace = true →
    isUpperAlpha a = true → isUpperAlpha b = true →
    l = pre ++ ',' :: (ws1 ++ a :: b :: ws2) →
    searchCountryTail l = some [a, b] := by
  intro pre
  induction pre with
  | nil =>
    intro l ws1 ws2 a b h1 h2 ha hb hl
    subst hl
    rw [List.nil_append]
    simp only [searchCountryTail]
    rw [countryTailMatch_complete h1 h2 ha hb]
  | cons c pre' ih =>
    intro l ws1 ws2 a b h1 h2 ha hb hl
    subst hl
    rw [List.cons_append]
    simp only [searchCountryTail]
    cases hm : countryTailMatch (c :: (pre' ++ ',' :: (ws1 ++ a :: b :: ws2))) with
    | none => exact ih h1 h2 ha hb rfl
    | some cc' =>
      exfalso
      obtain ⟨ws1', ws2', a', b', hw1', hw2', ha', hb', heq', -⟩ := countryTailMatch_sound hm
      have hcomma : ',' ∈ pre' ++ ',' :: (ws1 ++ a :: b :: ws2) :=
        List.mem_append_right _ (List.mem_cons_self _ _)
      have heq'' : pre' ++ ',' :: (ws1 ++ a :: b :: ws2) = ws1' ++ a' :: b' :: ws2' := by
        injection heq' with _ h'
      rw [heq''] at hcomma
      exact matchform_no_comma hw1' hw2' ha' hb' hcomma

/-- C7: `infer_country_from_holder` returns the two capital letters of a
trailing `", XX"` pattern (comma, optional whitespace, exactly two capital
ASCII letters, optional trailing whitespace, end of string) whenever the
holder has such a tail, and returns `"UNKNOWN"` for every string without one;
a `None` holder is treated as the empty string and yields `"UNKNOWN"`. -/
theorem c7_infer_country_from_holder (h : List Char) :
    infer_country_from_holder [] = "UNKNOWN".data ∧
    (∀ (pre ws1 ws2 : List Char) (a b : Char),
      ws1.all pyIsSpace = true → ws2.all pyIsSpace = true →
      isUpperAlpha a = true → isUpperAlpha b = true →
      h = pre ++ ',' :: (ws1 ++ a :: b :: ws2) →
      infer_country_from_holder h = [a, b]) ∧
    ((¬ ∃ (pre ws1 ws2 : List Char) (a b : Char),
      ws1.all pyIsSpace = true ∧ ws2.all pyIsSpace = true ∧
      isUpperAlpha a = true ∧ isUpperAlpha b = true ∧
      h = pre ++ ',' :: (ws1 ++ a :: b :: ws2)) →
      infer_country_from_holder h = "UNKNOWN".data) := by
  refine ⟨rfl, ?_, ?_⟩
  · intro pre ws1 ws2 a b h1 h2 ha hb hl
    unfold infer_country_from_holder
    rw [searchCountryTail_complete pre h1 h2 ha hb hl]
  · intro hno
    unfold infer_country_from_holder
    cases hs : searchCountryTail h with
    | none => rfl
    | some cc =>
      exfalso
      obtain ⟨pre, ws1, ws2, a, b, hw1, hw2, ha, hb, heq, -⟩ := searchCountryTail_sound hs
      exact hno ⟨pre, ws1, ws2, a, b, hw1, hw2, ha, hb, heq⟩

/-- Witness for C7: a holder with a `", NL"` tail yields `NL`, and a holder
without a country tail yields `UNKNOWN`. -/
theorem c7_witness :
    infer_country_from_holder "Acme Corp, NL".data = ['N', 'L'] ∧
    infer_country_from_holder "Acme Corp".data = "UNKNOWN".data :=
  ⟨(c7_infer_country_from_holder "Acme Corp, NL".data).2.1 "Acme Corp".data [' '] [] 'N' 'L'
      (by decide) (by decide) (by decide) (by decide) (by decide),
   (c7_infer_country_from_holder "Acme Corp".data).2.2 (by
      rintro ⟨pre, ws1, ws2, a, b, -, -, -, -, heq⟩
      have hc : ',' ∈ pre ++ ',' :: (ws1 ++ a :: b :: ws2) :=
        List.mem_append_right _ (List.mem_cons_self _ _)
      rw [← heq] at hc
      exact absurd hc (by decide))⟩

/-- Witness for C10: the network 192.168.0.0/24 with the oracle returning the
low end of the interval. -/
theorem c10_witness :
    IpGen.network_address 3232235520 24 ≤
      IpGen.random_ip_from_prefix (fun x _ => x) 3232235520 24 ∧
    IpGen.random_ip_from_prefix (fun x _ => x) 3232235520 24 ≤
      IpGen.broadcast_address 3232235520 24 ∧
    IpGen.random_ip_from_prefix (fun x _ => x) 3232235520 24 < 2 ^ 32 ∧
    (31 ≤ 24 → IpGen.random_ip_from_prefix (fun x _ => x) 3232235520 24 =
      IpGen.network_address 3232235520 24) ∧
    (24 ≤ 30 →
      IpGen.network_address 3232235520 24 <
        IpGen.random_ip_from_prefix (fun x _ => x) 3232235520 24 ∧
      IpGen.random_ip_from_prefix (fun x _ => x) 3232235520 24 <
        IpGen.broadcast_address 3232235520 24) :=
  c10_random_ip_from_prefix_in_network (fun x _ => x)
    (fun x y h => ⟨Nat.le_refl x, h⟩) 3232235520 24 (by norm_num) (by norm_num)
